import Mathlib

/-!
Verification of the import engine of the kontent-data-manager repository.

The definitions below are a shallow embedding of the TypeScript sources:
  * `src/lib/core/id-translate-helper.ts` (reference translation and the
    rich-text / object-tree reference rewriter),
  * `src/lib/import/import.service.ts` (asset, content-item and
    language-variant import stages and the workflow reconciler),
  * `src/lib/core/global-helper.ts` (`handleError`).
JavaScript objects are modelled as association lists of string keys,
JavaScript strings as Lean strings (lists of characters for the regex
scanner), thrown exceptions as `Except`, and the management-client calls as
an environment of response functions together with an explicit trace of the
operations issued.
-/

set_option maxHeartbeats 1000000

namespace KontentVerify

/-! ## JavaScript-like values (for the generic object-tree rewriter) -/

mutual

/-- A JSON/JavaScript value as handled by `replaceIdReferencesWithNewId`:
strings, numbers, booleans, `null`, `undefined`, arrays and plain objects
(bindings of string keys, in property-insertion order). -/
inductive JSVal where
  | str (s : String)
  | num (n : Int)
  | boolean (b : Bool)
  | null
  | undef
  | arr (xs : JSArr)
  | obj (fields : JSObj)
deriving DecidableEq

/-- An array of JavaScript values. -/
inductive JSArr where
  | nil
  | cons (head : JSVal) (tail : JSArr)
deriving DecidableEq

/-- The key/value bindings of a JavaScript object, in property-insertion
order; a well-formed JS object never binds the same key twice. -/
inductive JSObj where
  | nil
  | cons (key : String) (value : JSVal) (rest : JSObj)
deriving DecidableEq

end

/-! ## Data model of the import service -/

/-- A workflow step (`WorkflowModels.WorkflowStep`): identified by both
`id` and `codename`. -/
structure WorkflowStep where
  id : String
  codename : String
deriving DecidableEq

/-- A target-side workflow (`WorkflowModels.Workflow`): codename, ordinary
steps, and the two distinguished published/archived steps. -/
structure Workflow where
  codename : String
  steps : List WorkflowStep
  publishedStep : WorkflowStep
  archivedStep : WorkflowStep
deriving DecidableEq

/-- A target-side collection (`CollectionModels.Collection`). -/
structure Collection where
  id : String
  codename : String
deriving DecidableEq

/-- A target-side content item (`ContentItemModels.ContentItem`); the
collection on a fetched item is a reference carrying only an id. -/
structure ContentItem where
  id : String
  name : String
  codename : String
  collectionId : String
deriving DecidableEq

/-- A target-side language variant (`ContentItemLanguageVariant`): the model
keeps the only field the import service reads, `workflowStep.id`
(the empty string models a missing/empty id, which is falsy in JS). -/
structure LanguageVariant where
  workflowStepId : String
deriving DecidableEq

/-- A source asset to import (`IImportAsset`). -/
structure IImportAsset where
  assetId : String
  filename : String
  mimeType : Option String
  binaryData : String
deriving DecidableEq

/-- A target-side asset record (response of `viewAsset` / `addAsset`). -/
structure AssetRecord where
  id : String
deriving DecidableEq

/-- Response of `uploadBinaryFile`. -/
structure BinaryRef where
  id : String
deriving DecidableEq

/-- A parsed source element (`IParsedElement`). -/
structure IParsedElement where
  codename : String
  type : String
  value : JSVal
deriving DecidableEq

/-- A parsed source content item row (`IParsedContentItem`); `workflow_step`
is `none` (or `some ""`) for component placeholders, both falsy in JS. -/
structure IParsedContentItem where
  codename : String
  name : String
  type : String
  collection : String
  language : String
  workflow_step : Option String
  elements : List IParsedElement
deriving DecidableEq

/-- Opaque payload stored in a ledger entry's `imported` / `original`
fields; the import service stores whole response/source objects there. -/
inductive Payload where
  | asset (a : IImportAsset)
  | assetRecord (r : AssetRecord)
  | binary (b : BinaryRef)
  | contentItem (c : ContentItem)
  | parsedItem (p : IParsedContentItem)
  | variant (v : LanguageVariant)
  | variantList
deriving DecidableEq

/-- A ledger entry (`IImportItemResult`): exactly the five fields pushed by
`processItem`. -/
structure IImportItemResult where
  imported : Payload
  original : Payload
  importId : Option String
  originalId : Option String
  originalCodename : Option String
deriving DecidableEq

/-! ## Errors -/

/-- An exception: either a `ContentManagementBaseKontentError` (with the
HTTP status of its original response, used for the 404 checks) or a plain
JavaScript `Error` with a message. -/
inductive KErr where
  | kontent (message errorCode requestId : String) (validationErrors : List String)
      (status : Option Nat)
  | jsError (message : String)
deriving DecidableEq

/-- Decidable equality of thrown-or-returned results. -/
instance exceptDecEq {ε α : Type} [DecidableEq ε] [DecidableEq α] : DecidableEq (Except ε α) :=
  fun x y =>
    match x, y with
    | .ok a, .ok b =>
      if h : a = b then .isTrue (by rw [h]) else .isFalse fun hc => h (by injection hc)
    | .error a, .error b =>
      if h : a = b then .isTrue (by rw [h]) else .isFalse fun hc => h (by injection hc)
    | .ok _, .error _ => .isFalse fun hc => Except.noConfusion hc
    | .error _, .ok _ => .isFalse fun hc => Except.noConfusion hc

/-- The check `error instanceof ContentManagementBaseKontentError &&
error.originalError?.response?.status === 404`. -/
def isNotFoundError : KErr → Bool
  | .kontent _ _ _ _ (some 404) => true
  | _ => false

/-! ## Reference translation (`tryFindNewId` / `tryFindNewIdForCodename`) -/

/-- JavaScript strict equality `originalId === id` between an entry's
`originalId` (a string or `undefined`) and an arbitrary value. -/
def strictEqOptStr : Option String → JSVal → Bool
  | none, .undef => true
  | some s, .str t => s == t
  | _, _ => false

/-- `tryFindNewId`: first entry whose `originalId` is strictly equal to the
given value; result is that entry's `importId` (possibly absent). -/
def tryFindNewId (items : List IImportItemResult) (id : JSVal) : Option String :=
  (items.find? fun m => strictEqOptStr m.originalId id).bind fun m => m.importId

/-- `tryFindNewIdForCodename`: first entry whose `originalCodename` equals
the given codename. -/
def tryFindNewIdForCodename (items : List IImportItemResult) (codename : String) : Option String :=
  (items.find? fun m => m.originalCodename == some codename).bind fun m => m.importId

/-! ## The regex scanner for rich text

Each of the five patterns of `replaceIdsInRichText` has the literal shape
`attrName="` followed by a lazy capture `(.*?)` and a closing quote.  JS
`String.replace` with a global regex scans left to right, replaces each
leftmost match and resumes after it; `.` matches any character except the
four JS line terminators. -/

/-- Characters matched by `.` in a JavaScript regex (no line terminators). -/
def regexDot (c : Char) : Bool :=
  c != '\n' && c != '\r' && c.val != 0x2028 && c.val != 0x2029

/-- Lazy capture `(.*?)\"`: the shortest run of dot-characters up to a
closing quote.  Returns the capture and the remainder after the quote. -/
def captureTo : List Char → Option (List Char × List Char)
  | [] => none
  | c :: rest =>
    if c = '"' then some ([], rest)
    else if regexDot c then
      match captureTo rest with
      | some (cap, r) => some (c :: cap, r)
      | none => none
    else none

/-- Does `pat` occur literally at the head of `s`? Returns the remainder. -/
def dropLit : List Char → List Char → Option (List Char)
  | [], s => some s
  | _ :: _, [] => none
  | p :: ps, c :: cs => if p = c then dropLit ps cs else none

/-- Try to match `pat(.*?)\"` at the head of `s`; on success return the
capture and the remainder after the full match. -/
def matchAt (pat : List Char) (s : List Char) : Option (List Char × List Char) :=
  match dropLit pat s with
  | some rest => captureTo rest
  | none => none

/-- Fueled scanner: split `s` into unmatched characters (`inl`) and captures
of leftmost matches (`inr`), resuming after each match.  Fuel `≥ s.length`
is always sufficient. -/
def scanF (pat : List Char) : Nat → List Char → List (Sum Char (List Char))
  | _, [] => []
  | 0, _ :: _ => []
  | fuel + 1, c :: rest =>
    match matchAt pat (c :: rest) with
    | some (cap, after) => .inr cap :: scanF pat fuel after
    | none => .inl c :: scanF pat fuel rest

/-- Scan a string into literal characters and captures of the pattern. -/
def scanMarkers (pat : List Char) (s : List Char) : List (Sum Char (List Char)) :=
  scanF pat s.length s

/-- Rebuild the output of `String.replace`: unmatched characters verbatim,
each match replaced by `f capture`. -/
def renderChunks (f : List Char → List Char) : List (Sum Char (List Char)) → List Char
  | [] => []
  | .inl c :: rest => c :: renderChunks f rest
  | .inr cap :: rest => f cap ++ renderChunks f rest

/-- `text.replace(regex, fn)` for the marker patterns. -/
def replaceAllMarkers (pat : List Char) (f : List Char → List Char) (s : List Char) : List Char :=
  renderChunks f (scanMarkers pat s)

/-- The full text matched by the regex at a capture: `pat ++ cap ++ '"'`. -/
def fullMarker (pat cap : List Char) : List Char := pat ++ cap ++ ['"']

/-- The replacement emitted on a hit: `attr="newId"`. -/
def hitMarker (attr : List Char) (newId : String) : List Char :=
  attr ++ ('=' :: '"' :: newId.toList) ++ ['"']

/-- Replacement callback of `replaceIdWithRegex`: on a truthy capture that
resolves to a truthy new id, emit `attr="newId"`; otherwise return the
match unchanged. -/
def idChunk (items : List IImportItemResult) (pat attr : List Char) (cap : List Char) : List Char :=
  if cap = [] then fullMarker pat cap
  else
    match tryFindNewId items (.str (String.mk cap)) with
    | some newId => if newId = "" then fullMarker pat cap else hitMarker attr newId
    | none => fullMarker pat cap

/-- Replacement callback of `replaceCodenameWithRegex`: on a truthy capture,
emit `attr="newId"` on a truthy hit and the fixed placeholder
`attr="ahoj"` otherwise; an empty (falsy) capture returns the match
unchanged. -/
def codenameChunk (items : List IImportItemResult) (pat attr : List Char) (cap : List Char) : List Char :=
  if cap = [] then fullMarker pat cap
  else
    match tryFindNewIdForCodename items (String.mk cap) with
    | some newId => if newId = "" then hitMarker attr "ahoj" else hitMarker attr newId
    | none => hitMarker attr "ahoj"

/-- `replaceIdWithRegex` over character lists. -/
def replaceIdWithRegexL (items : List IImportItemResult) (pat attr : List Char) (s : List Char) : List Char :=
  replaceAllMarkers pat (idChunk items pat attr) s

/-- `replaceCodenameWithRegex` over character lists. -/
def replaceCodenameWithRegexL (items : List IImportItemResult) (pat attr : List Char) (s : List Char) : List Char :=
  replaceAllMarkers pat (codenameChunk items pat attr) s

/-- Pattern prefix of `/data-codename="(.*?)"/g`. -/
def codenamePat : List Char := "data-codename=\"".toList

/-- Pattern prefix of `/data-item-id="(.*?)"/g`. -/
def itemIdPat : List Char := "data-item-id=\"".toList

/-- Pattern prefix of `/data-asset-id="(.*?)"/g`. -/
def assetIdPat : List Char := "data-asset-id=\"".toList

/-- Pattern prefix of `/data-image-id="(.*?)"/g`. -/
def imageIdPat : List Char := "data-image-id=\"".toList

/-- Pattern prefix of `/data-id="(.*?)"/g`. -/
def dataIdPat : List Char := "data-id=\"".toList

/-- The attribute name written for item-codename markers (`data-id`). -/
def dataIdAttr : List Char := "data-id".toList

/-- `replaceIdsInRichText` over character lists: the codename pass followed
by the four id-keyed passes, in source order. -/
def replaceIdsInRichTextL (items : List IImportItemResult) (s : List Char) : List Char :=
  let s1 := replaceCodenameWithRegexL items codenamePat dataIdAttr s
  let s2 := replaceIdWithRegexL items itemIdPat "data-item-id".toList s1
  let s3 := replaceIdWithRegexL items assetIdPat "data-asset-id".toList s2
  let s4 := replaceIdWithRegexL items imageIdPat "data-image-id".toList s3
  replaceIdWithRegexL items dataIdPat dataIdAttr s4

/-- `replaceIdsInRichText` on strings. -/
def replaceIdsInRichText (items : List IImportItemResult) (text : String) : String :=
  String.mk (replaceIdsInRichTextL items text.toList)

/-- The capture carried by a scanner chunk, if any. -/
def chunkCapture : Sum Char (List Char) → Option (List Char)
  | .inr cap => some cap
  | .inl _ => none

/-- All captures of the pattern in a string, in match order. -/
def capturesOf (pat : List Char) (s : List Char) : List (List Char) :=
  (scanMarkers pat s).filterMap chunkCapture

/-- A capture of an id-keyed marker on which the id pass is a no-op: the
capture is falsy, or it does not resolve, or it resolves to a falsy or
identical id. -/
def idCaptureFixed (items : List IImportItemResult) (cap : List Char) : Bool :=
  cap.isEmpty ||
    (match tryFindNewId items (.str (String.mk cap)) with
     | none => true
     | some s => s == "" || s == String.mk cap)

/-- A rich-text payload all of whose embedded references already carry
their translated target values: it contains no codename marker (the
codename pass rewrites every such marker, even on a hit), and every capture
of the four id-keyed patterns is empty, unresolvable or resolved to
itself. -/
def resolvedRichText (items : List IImportItemResult) (l : List Char) : Bool :=
  (capturesOf codenamePat l).isEmpty &&
    ((capturesOf itemIdPat l).all fun cap => idCaptureFixed items cap) &&
    ((capturesOf assetIdPat l).all fun cap => idCaptureFixed items cap) &&
    ((capturesOf imageIdPat l).all fun cap => idCaptureFixed items cap) &&
    ((capturesOf dataIdPat l).all fun cap => idCaptureFixed items cap)

/-! ## The generic object-tree rewriter (`replaceIdReferencesWithNewId`)

The TypeScript function mutates an object in place while iterating over a
snapshot of `Object.keys(data)`.  The model iterates over the object's
original bindings (exactly the key snapshot) while threading the current
object state `o` through the per-key steps, so every property read
(`data[key]`, `data.id`) sees earlier in-place writes, as in the source.
The recursive descent into an object- or array-valued `val` is taken on the
original binding value: for a JS object (each key bound once) this is the
same value, because the loop only ever overwrites bindings with strings,
and a string-valued binding is never recursed into. -/

/-- Property read `data[key]` (an absent key reads as `undefined`). -/
def jsGet : JSObj → String → JSVal
  | .nil, _ => .undef
  | .cons k1 v1 rest, k => if k1 = k then v1 else jsGet rest k

/-- Property write `data[key] = v`: overwrite the existing binding or append
a new one (JS property-insertion order). -/
def jsSet : JSObj → String → JSVal → JSObj
  | .nil, k, v => .cons k v .nil
  | .cons k1 v1 rest, k, v =>
    if k1 = k then .cons k v rest else .cons k1 v1 (jsSet rest k v)

/-- Does the character list start with `c`? -/
def headIs (c : Char) : List Char → Bool
  | [] => false
  | c1 :: _ => c1 = c

/-- Does the character list end with `c`? -/
def lastIs (c : Char) : List Char → Bool
  | [] => false
  | [c1] => c1 = c
  | _ :: c1 :: rest => lastIs c (c1 :: rest)

/-- The string test `val.startsWith('<') && val.endsWith('>')`. -/
def isDelimited (s : String) : Bool :=
  headIs '<' s.toList && lastIs '>' s.toList

/-- `toLowerCase()` (characterwise; ASCII case mapping, which is what the
compared keys and codenames use). -/
def jsToLower (s : String) : String :=
  String.mk (s.toList.map Char.toLower)

/-- `typeof val === 'object' && val !== null` (arrays and plain objects). -/
def isObjectLike : JSVal → Bool
  | .arr _ => true
  | .obj _ => true
  | _ => false

/-- The first step of one key-loop iteration of
`replaceIdReferencesWithNewId`: if `val = data[key]` is a `<...>`-delimited
string, write the rich-text rewrite back to `data[key]`. -/
def stringStep (items : List IImportItemResult) (o : JSObj) (k : String) (val : JSVal) : JSObj :=
  match val with
  | .str s => if isDelimited s then jsSet o k (.str (replaceIdsInRichText items s)) else o
  | _ => o

/-- The second step of one key-loop iteration: if the key is `'id'`
case-insensitively, read the property literally named `id` (`data.id`),
resolve it by id and write the result back to `data.id` when truthy. -/
def idStep (items : List IImportItemResult) (o : JSObj) (k : String) : JSObj :=
  if jsToLower k = "id" then
    match tryFindNewId items (jsGet o "id") with
    | some newId => if newId = "" then o else jsSet o "id" (.str newId)
    | none => o
  else o

mutual

/-- `replaceIdReferencesWithNewId` (result of the in-place mutation).
Falsy data and non-object truthy data (strings, numbers, booleans) are left
unchanged; arrays recurse into every element; objects run the key loop. -/
def replaceIdReferencesWithNewId (items : List IImportItemResult) : JSVal → JSVal
  | .arr xs => .arr (replaceIdReferencesArr items xs)
  | .obj fields => .obj (objWalk items fields fields)
  | v => v

/-- Elementwise recursion of `replaceIdReferencesWithNewId` over an array. -/
def replaceIdReferencesArr (items : List IImportItemResult) : JSArr → JSArr
  | .nil => .nil
  | .cons x xs => .cons (replaceIdReferencesWithNewId items x) (replaceIdReferencesArr items xs)

/-- The key loop of `replaceIdReferencesWithNewId`: for each key of the
snapshot (first argument), read `val = data[key]` from the current state
`o`; run the delimited-string rewrite (`stringStep`) and the id resolution
(`idStep`); finally recurse into `val` when it is an object or array (the
recursion argument is the snapshot binding `v`, which equals `val` whenever
`val` is an object or array and keys are unique, since bindings are only
ever overwritten with strings). -/
def objWalk (items : List IImportItemResult) : JSObj → JSObj → JSObj
  | .nil, o => o
  | .cons k v rest, o =>
    let val := jsGet o k
    let o2 := idStep items (stringStep items o k val) k
    let o3 := if isObjectLike val then jsSet o2 k (replaceIdReferencesWithNewId items v) else o2
    objWalk items rest o3

end

/-! ## Specification-side notions for the object-tree rewriter -/

/-- Does the object carry a binding for the key? -/
def hasKey : JSObj → String → Bool
  | .nil, _ => false
  | .cons k1 _ rest, k => k1 == k || hasKey rest k

/-- The value of the first binding of the key, if any. -/
def getBinding : JSObj → String → Option JSVal
  | .nil, _ => none
  | .cons k1 v1 rest, k => if k1 = k then some v1 else getBinding rest k

mutual

/-- Well-formedness of a value as a JavaScript value: no object binds the
same key twice (a JS object cannot). -/
def wfJS : JSVal → Bool
  | .arr xs => wfArr xs
  | .obj fields => wfObj fields
  | _ => true

/-- Well-formedness of every element of an array. -/
def wfArr : JSArr → Bool
  | .nil => true
  | .cons x xs => wfJS x && wfArr xs

/-- Well-formedness of an object: distinct keys, well-formed values. -/
def wfObj : JSObj → Bool
  | .nil => true
  | .cons k v rest => !hasKey rest k && wfJS v && wfObj rest

end

/-- `fields` is a tail segment of `whole` (the not-yet-processed part of
the key loop). -/
inductive ObjSuffix : JSObj → JSObj → Prop where
  | refl (o : JSObj) : ObjSuffix o o
  | tail (k : String) (v : JSVal) (rest o : JSObj) :
      ObjSuffix o rest → ObjSuffix o (.cons k v rest)

/-- The value found under the property `id` would not be changed by the
id-resolution step: it does not resolve, or resolves to a falsy id, or
resolves to itself. -/
def idValueFixed (items : List IImportItemResult) (v : JSVal) : Bool :=
  match tryFindNewId items v with
  | none => true
  | some s => s == "" || v == JSVal.str s

/-- The condition under which the delimited-string step leaves a binding
value unchanged: a non-delimited or resolved string, or a non-string. -/
def strCondition (items : List IImportItemResult) : JSVal → Bool
  | .str s => !isDelimited s || resolvedRichText items s.toList
  | _ => true

mutual

/-- Every embedded reference of the value already carries its translated
target value, so the tree rewrite has nothing to change. -/
def resolvedTree (items : List IImportItemResult) : JSVal → Bool
  | .arr xs => resolvedArr items xs
  | .obj fields => resolvedFields items fields fields
  | _ => true

/-- `resolvedTree` on every element of an array. -/
def resolvedArr (items : List IImportItemResult) : JSArr → Bool
  | .nil => true
  | .cons x xs => resolvedTree items x && resolvedArr items xs

/-- Per-binding resolvedness, relative to the whole object (the id-step
reads the property literally named `id` of the whole object): a delimited
string value is a resolved rich text, a key named `id` case-insensitively
requires the `id` property's value to be fixed under resolution, and
children are recursively resolved. -/
def resolvedFields (items : List IImportItemResult) : JSObj → JSObj → Bool
  | .nil, _ => true
  | .cons k v rest, whole =>
    strCondition items v &&
    (jsToLower k != "id" || idValueFixed items (jsGet whole "id")) &&
    resolvedTree items v &&
    resolvedFields items rest whole

end

mutual

/-- The frame relation of the tree rewrite: how an input value may relate
to the rewritten output.  Leaves are unchanged, arrays are rewritten
elementwise (same length), and an object's bindings evolve per
`FrameObj`. -/
inductive FrameVal (items : List IImportItemResult) : JSVal → JSVal → Prop where
  | str (s : String) : FrameVal items (.str s) (.str s)
  | num (n : Int) : FrameVal items (.num n) (.num n)
  | boolean (b : Bool) : FrameVal items (.boolean b) (.boolean b)
  | null : FrameVal items .null .null
  | undef : FrameVal items .undef .undef
  | arr (xs ys : JSArr) : FrameArr items xs ys → FrameVal items (.arr xs) (.arr ys)
  | obj (fields fields' : JSObj) : FrameObj items (fun _ => false) fields fields' →
      FrameVal items (.obj fields) (.obj fields')

/-- Elementwise frame relation on arrays. -/
inductive FrameArr (items : List IImportItemResult) : JSArr → JSArr → Prop where
  | nil : FrameArr items .nil .nil
  | cons (x y : JSVal) (xs ys : JSArr) : FrameVal items x y → FrameArr items xs ys →
      FrameArr items (.cons x xs) (.cons y ys)

/-- Frame relation between an object's original bindings and its current
bindings during/after the key loop.  `pend k` marks keys whose iteration
has not run yet.  Keys and binding order are preserved; the only possible
extension is a single string-valued `id` binding appended at the end (the
id-step writing `data.id` on an object without an `id` property).  A
binding may: stay unchanged; be a delimited string rewritten by the
rich-text pass (once its key was processed); be the `id` binding, whose
string or undefined value may be overwritten with a resolved id string at
any time (any key named `id` case-insensitively triggers this); or be an
object/array child rewritten by the recursive call (once processed). -/
inductive FrameObj (items : List IImportItemResult) :
    (String → Bool) → JSObj → JSObj → Prop where
  | nil (pend : String → Bool) : FrameObj items pend .nil .nil
  | nilId (pend : String → Bool) (s : String) :
      FrameObj items pend .nil (.cons "id" (.str s) .nil)
  | consSame (pend : String → Bool) (k : String) (v : JSVal) (rest rest' : JSObj) :
      FrameObj items pend rest rest' →
      FrameObj items pend (.cons k v rest) (.cons k v rest')
  | consDelim (pend : String → Bool) (k : String) (s : String) (rest rest' : JSObj) :
      pend k = false → isDelimited s = true →
      FrameObj items pend rest rest' →
      FrameObj items pend (.cons k (.str s) rest)
        (.cons k (.str (replaceIdsInRichText items s)) rest')
  | consIdStr (pend : String → Bool) (s s' : String) (rest rest' : JSObj) :
      FrameObj items pend rest rest' →
      FrameObj items pend (.cons "id" (.str s) rest) (.cons "id" (.str s') rest')
  | consIdUndef (pend : String → Bool) (s' : String) (rest rest' : JSObj) :
      FrameObj items pend rest rest' →
      FrameObj items pend (.cons "id" .undef rest) (.cons "id" (.str s') rest')
  | consChild (pend : String → Bool) (k : String) (v v' : JSVal) (rest rest' : JSObj) :
      pend k = false → isObjectLike v = true → FrameVal items v v' →
      FrameObj items pend rest rest' →
      FrameObj items pend (.cons k v rest) (.cons k v' rest')

end

/-! ## Workflow classification (`import.service.ts`) -/

/-- Modelled from the spec: the codename of the project's designated default
workflow (`defaultWorkflowCodename`, exported by the core module, which is
not among the provided sources); the import service compares it
case-insensitively against the codenames of the listed workflows. -/
def defaultWorkflowCodename : String := "default"

/-- The scanning loop of `getWorkflowForGivenStepByCodename`: the first
workflow whose archived step, published step or ordinary step list carries
the given codename. -/
def workflowLoopByCodename (codename : String) : List Workflow → Option Workflow
  | [] => none
  | workflow :: rest =>
    if workflow.archivedStep.codename == codename then some workflow
    else if workflow.publishedStep.codename == codename then some workflow
    else
      match workflow.steps.find? fun m => m.codename == codename with
      | some _ => some workflow
      | none => workflowLoopByCodename codename rest

/-- The default-workflow fallback lookup (case-insensitive codename). -/
def findDefaultWorkflow (workflows : List Workflow) : Option Workflow :=
  workflows.find? fun m => jsToLower m.codename == jsToLower defaultWorkflowCodename

/-- Does the workflow carry the step codename, in its published step, its
archived step or its ordinary step list (the classification predicate the
scanning loop tests on each workflow)? -/
def workflowMatchesStep (codename : String) (w : Workflow) : Bool :=
  w.publishedStep.codename == codename || w.archivedStep.codename == codename ||
    w.steps.any fun m => m.codename == codename

/-- `getWorkflowForGivenStepByCodename`: scan every workflow in list order;
fall back to the default workflow; throw `Missing default workflow` if that
is absent too. -/
def getWorkflowForGivenStepByCodename (codename : String) (workflows : List Workflow) :
    Except KErr Workflow :=
  match workflowLoopByCodename codename workflows with
  | some workflow => .ok workflow
  | none =>
    match findDefaultWorkflow workflows with
    | some defaultWorkflow => .ok defaultWorkflow
    | none => .error (.jsError "Missing default workflow")

/-- The scanning loop of `getWorkflowForGivenStepById`. -/
def workflowLoopById (workflowId : String) : List Workflow → Option Workflow
  | [] => none
  | workflow :: rest =>
    if workflow.archivedStep.id == workflowId then some workflow
    else if workflow.publishedStep.id == workflowId then some workflow
    else
      match workflow.steps.find? fun m => m.id == workflowId with
      | some _ => some workflow
      | none => workflowLoopById workflowId rest

/-- `getWorkflowForGivenStepById`: same scan keyed by step id. -/
def getWorkflowForGivenStepById (workflowId : String) (workflows : List Workflow) :
    Except KErr Workflow :=
  match workflowLoopById workflowId workflows with
  | some workflow => .ok workflow
  | none =>
    match findDefaultWorkflow workflows with
    | some defaultWorkflow => .ok defaultWorkflow
    | none => .error (.jsError "Missing default workflow")

/-- `isLanguageVariantPublished`: some workflow's published step has the
variant's current step id. -/
def isLanguageVariantPublished (variant : LanguageVariant) (workflows : List Workflow) : Bool :=
  workflows.any fun workflow => workflow.publishedStep.id == variant.workflowStepId

/-- `isLanguageVariantArchived`: some workflow's archived step has the
variant's current step id. -/
def isLanguageVariantArchived (variant : LanguageVariant) (workflows : List Workflow) : Bool :=
  workflows.any fun workflow => workflow.archivedStep.id == variant.workflowStepId

/-- `doesWorkflowStepCodenameRepresentPublishedStep`. -/
def doesWorkflowStepCodenameRepresentPublishedStep (codename : String)
    (workflows : List Workflow) : Bool :=
  workflows.any fun workflow => workflow.publishedStep.codename == codename

/-- `doesWorkflowStepCodenameRepresentArchivedStep`. -/
def doesWorkflowStepCodenameRepresentArchivedStep (codename : String)
    (workflows : List Workflow) : Bool :=
  workflows.any fun workflow => workflow.archivedStep.codename == codename

/-! ## The management-client environment and the operation trace

Every management-API call of the import service is modelled as a lookup in
an environment of response functions (`Except` carries a thrown error), and
is recorded in an explicit trace.  `processItem` pushes a ledger entry and
is recorded as a `processed` trace event carrying its action and item
type. -/

/-- An element contract produced for `upsertLanguageVariant` (the result of
`translationHelper.transformToImportValue`, an external collaborator
of the import service). -/
structure ElementContract where
  data : JSVal
deriving DecidableEq

/-- Responses of the target system and of the element transformer. -/
structure Env where
  viewAssetByExternalId : String → Except KErr AssetRecord
  uploadBinaryFile : String → String → String → Except KErr BinaryRef
  addAsset : String → String → Except KErr AssetRecord
  viewContentItem : String → Except KErr ContentItem
  addContentItem : String → String → String → String → Except KErr ContentItem
  upsertContentItem : String → String → String → Except KErr ContentItem
  listWorkflows : Except KErr (List Workflow)
  listCollections : Except KErr (List Collection)
  viewLanguageVariant : String → String → Except KErr LanguageVariant
  upsertLanguageVariant : String → String → List ElementContract → Except KErr LanguageVariant
  publishLanguageVariant : String → String → Except KErr Unit
  changeWorkflowOfLanguageVariant : String → String → String → String → Except KErr Unit
  changeWorkflowStepOfLanguageVariant : String → String → String → Except KErr Unit
  createNewVersionOfLanguageVariant : String → String → Except KErr Unit
  transformElement : IParsedElement → Option ElementContract

/-- The action tags passed to `processItem`. -/
inductive ActionType where
  | fetch
  | create
  | upload
  | upsert
  | skipUpdate
  | publish
  | archive
  | changeWorkflowStep
  | createNewVersion
  | unArchive
deriving DecidableEq, Repr

/-- The item-type tags passed to `processItem`. -/
inductive ItemType where
  | asset
  | binaryFile
  | contentItem
  | languageVariant
deriving DecidableEq, Repr

/-- One observable operation of an import run. -/
inductive Op where
  | viewAsset (externalId : String)
  | uploadBinaryFile (filename : String)
  | addAsset (externalId fileRefId : String)
  | viewContentItem (codename : String)
  | addContentItem (codename : String)
  | upsertContentItem (codename : String)
  | listWorkflows
  | listCollections
  | viewLanguageVariant (itemCodename language : String)
  | upsertLanguageVariant (itemCodename language : String)
  | publishLanguageVariant (itemCodename language : String)
  | changeWorkflowOfLanguageVariant (itemCodename language stepCodename workflowCodename : String)
  | changeWorkflowStepOfLanguageVariant (itemCodename language stepCodename : String)
  | createNewVersionOfLanguageVariant (itemCodename language : String)
  | processed (action : ActionType) (itemType : ItemType)
deriving DecidableEq, Repr

/-- The mutable state of a run: the accumulating ledger array
(`importedItems`) and the trace of operations issued so far. -/
structure St where
  ledger : List IImportItemResult
  trace : List Op
deriving DecidableEq

/-- Record an issued client call. -/
def pushOp (st : St) (op : Op) : St :=
  { st with trace := st.trace ++ [op] }

/-- `processItem`: push a ledger entry (five fields) and record the event.
(The source additionally logs to the console unless the action is `fetch`;
console output is not modelled.) -/
def processItem (st : St) (action : ActionType) (itemType : ItemType)
    (imported original : Payload) (importId originalId originalCodename : Option String) : St :=
  { ledger := st.ledger ++ [⟨imported, original, importId, originalId, originalCodename⟩],
    trace := st.trace ++ [.processed action itemType] }

/-! ## Asset import stage (`importAssetsAsync`) -/

/-- One `viewAsset().byAssetExternalId()` call wrapped in the 404-swallowing
`try` block: on success the local `existingAsset` is assigned; on a 404 the
previous value is kept; any other error is re-thrown. -/
def tryViewAsset (env : Env) (st : St) (externalId : String) (existing : Option AssetRecord) :
    St × Except KErr (Option AssetRecord) :=
  let st := pushOp st (.viewAsset externalId)
  match env.viewAssetByExternalId externalId with
  | .ok r => (st, .ok (some r))
  | .error e => if isNotFoundError e then (st, .ok existing) else (st, .error e)

/-- The body of the `importAssetsAsync` loop for one asset: two identical
existence checks by external id (the source checks twice in sequence), then
either upload + create + ledger registration, or a fetch + skipUpdate pair
with no further call. -/
def importOneAsset (env : Env) (st : St) (asset : IImportAsset) : St × Except KErr Unit :=
  match tryViewAsset env st asset.assetId none with
  | (st1, .error e) => (st1, .error e)
  | (st1, .ok existing1) =>
    match tryViewAsset env st1 asset.assetId existing1 with
    | (st2, .error e) => (st2, .error e)
    | (st2, .ok existing2) =>
      match existing2 with
      | none =>
        let st3 := pushOp st2 (.uploadBinaryFile asset.filename)
        match env.uploadBinaryFile asset.filename (asset.mimeType.getD "") asset.binaryData with
        | .error e => (st3, .error e)
        | .ok uploaded =>
          let st4 := processItem st3 .upload .binaryFile (.binary uploaded) (.asset asset)
            none none none
          let st5 := pushOp st4 (.addAsset asset.assetId uploaded.id)
          match env.addAsset uploaded.id asset.assetId with
          | .error e => (st5, .error e)
          | .ok created =>
            (processItem st5 .create .asset (.assetRecord created) (.asset asset)
              (some created.id) (some asset.assetId) none, .ok ())
      | some existing =>
        let st3 := processItem st2 .fetch .asset (.assetRecord existing) (.asset asset)
          (some existing.id) (some asset.assetId) none
        (processItem st3 .skipUpdate .asset (.assetRecord existing) (.asset asset)
          (some existing.id) (some asset.assetId) none, .ok ())

/-- `importAssetsAsync`: process the assets in source order; the first
thrown error aborts the loop. -/
def importAssetsAsync (env : Env) : List IImportAsset → St → St × Except KErr Unit
  | [], st => (st, .ok ())
  | asset :: rest, st =>
    match importOneAsset env st asset with
    | (st1, .ok _) => importAssetsAsync env rest st1
    | (st1, .error e) => (st1, .error e)

/-! ## Content item import stage (`importContentItemsAsync`) -/

/-- JS truthiness of `importContentItem.workflow_step`. -/
def wsTruthy : Option String → Bool
  | none => false
  | some s => s != ""

/-- `prepareContentItemForImportAsync`: fetch by codename and register a
`fetch` entry, or on a 404 create the item and register a `create` entry;
other errors are re-thrown. -/
def prepareContentItemForImportAsync (env : Env) (st : St) (item : IParsedContentItem) :
    St × Except KErr ContentItem :=
  let st := pushOp st (.viewContentItem item.codename)
  match env.viewContentItem item.codename with
  | .ok contentItem =>
    (processItem st .fetch .contentItem (.contentItem contentItem) (.contentItem contentItem)
      (some contentItem.id) none (some contentItem.codename), .ok contentItem)
  | .error e =>
    if isNotFoundError e then
      let st := pushOp st (.addContentItem item.codename)
      match env.addContentItem item.name item.type item.codename item.collection with
      | .ok contentItem =>
        (processItem st .create .contentItem (.contentItem contentItem) (.contentItem contentItem)
          (some contentItem.id) none (some contentItem.codename), .ok contentItem)
      | .error e2 => (st, .error e2)
    else (st, .error e)

/-- `shouldUpdateContentItem`: throw on a collection codename absent from
the target; otherwise compare the source name with the fetched item's name,
and the source collection codename with the codename of the target
collection that was found by that same codename. -/
def shouldUpdateContentItem (item : IParsedContentItem) (prepared : ContentItem)
    (collections : List Collection) : Except KErr Bool :=
  match collections.find? fun m => m.codename == item.collection with
  | none => .error (.jsError ("Invalid collection " ++ item.collection))
  | some collection =>
    .ok (item.name != prepared.name || item.collection != collection.codename)

/-- The `try` body of one pass-A iteration: prepare (fetch-or-create) the
item, push it onto `preparedItems`, then upsert or skip according to
`shouldUpdateContentItem`. -/
def passAItemBody (env : Env) (collections : List Collection) (st : St)
    (prepared : List ContentItem) (item : IParsedContentItem) :
    St × List ContentItem × Except KErr Unit :=
  match prepareContentItemForImportAsync env st item with
  | (st1, .error e) => (st1, prepared, .error e)
  | (st1, .ok preparedItem) =>
    let prepared := prepared ++ [preparedItem]
    match shouldUpdateContentItem item preparedItem collections with
    | .error e => (st1, prepared, .error e)
    | .ok true =>
      let st2 := pushOp st1 (.upsertContentItem item.codename)
      match env.upsertContentItem item.codename item.name item.collection with
      | .error e => (st2, prepared, .error e)
      | .ok upserted =>
        (processItem st2 .upsert .contentItem (.parsedItem item) (.parsedItem item)
          (some upserted.id) none (some item.codename), prepared, .ok ())
    | .ok false =>
      (processItem st1 .skipUpdate .contentItem (.parsedItem item) (.parsedItem item)
        (some preparedItem.id) none (some item.codename), prepared, .ok ())

/-- Pass A over all items: placeholders (falsy workflow step) are skipped;
a per-item error is swallowed when `skipFailedItems` is set (the item's
earlier ledger entries and `preparedItems` push are kept) and re-thrown
otherwise. -/
def passA (env : Env) (skipFailedItems : Bool) (collections : List Collection) :
    List IParsedContentItem → St → List ContentItem → St × List ContentItem × Except KErr Unit
  | [], st, prepared => (st, prepared, .ok ())
  | item :: rest, st, prepared =>
    if wsTruthy item.workflow_step then
      match passAItemBody env collections st prepared item with
      | (st1, prepared1, .ok _) => passA env skipFailedItems collections rest st1 prepared1
      | (st1, prepared1, .error e) =>
        if skipFailedItems then passA env skipFailedItems collections rest st1 prepared1
        else (st1, prepared1, .error e)
    else passA env skipFailedItems collections rest st prepared

/-- `prepareLanguageVariantForImportAsync`: fetch the variant (404 means it
does not exist yet); if it exists and is published, create a new version;
if it exists and is archived (and its current step id is truthy), change
its workflow step to the first ordinary step of the workflow owning that
step id (un-archive); `workflow.steps[0]` on a workflow without ordinary
steps is a JS `TypeError`. -/
def prepareLanguageVariantForImportAsync (env : Env) (workflows : List Workflow) (st : St)
    (item : IParsedContentItem) : St × Except KErr Unit :=
  let st := pushOp st (.viewLanguageVariant item.codename item.language)
  match env.viewLanguageVariant item.codename item.language with
  | .error e => if isNotFoundError e then (st, .ok ()) else (st, .error e)
  | .ok variant =>
    let st := processItem st .fetch .languageVariant (.variant variant) (.parsedItem item)
      none none none
    if isLanguageVariantPublished variant workflows then
      let st := pushOp st (.createNewVersionOfLanguageVariant item.codename item.language)
      match env.createNewVersionOfLanguageVariant item.codename item.language with
      | .error e => (st, .error e)
      | .ok _ =>
        (processItem st .createNewVersion .languageVariant (.variant variant) (.parsedItem item)
          none none none, .ok ())
    else if isLanguageVariantArchived variant workflows then
      if variant.workflowStepId != "" then
        match getWorkflowForGivenStepById variant.workflowStepId workflows with
        | .error e => (st, .error e)
        | .ok workflow =>
          match workflow.steps with
          | [] => (st, .error (.jsError "TypeError: workflow.steps[0] is undefined"))
          | newWorkflowStep :: _ =>
            let st := pushOp st
              (.changeWorkflowStepOfLanguageVariant item.codename item.language
                newWorkflowStep.codename)
            match env.changeWorkflowStepOfLanguageVariant item.codename item.language
                newWorkflowStep.codename with
            | .error e => (st, .error e)
            | .ok _ =>
              (processItem st .unArchive .languageVariant (.variant variant) (.parsedItem item)
                none none none, .ok ())
      else (st, .ok ())
    else (st, .ok ())

/-- Build the element contracts for `upsertLanguageVariant`
(`getElementContract` applied to every parsed element, in order): a
missing import contract is a thrown error. -/
def mapElements (env : Env) : List IParsedElement → Except KErr (List ElementContract)
  | [] => .ok []
  | element :: rest =>
    match env.transformElement element with
    | none => .error (.jsError "Missing import contract for element ")
    | some contract =>
      match mapElements env rest with
      | .ok contracts => .ok (contract :: contracts)
      | .error e => .error e

/-- The `try` body of one pass-B iteration: find the prepared item, drive
the existing variant out of published/archived state, upsert the variant's
elements, then issue the workflow transition selected by classifying the
desired step codename (publish / change-step to archived / change-step). -/
def passBItemBody (env : Env) (workflows : List Workflow) (prepared : List ContentItem)
    (st : St) (item : IParsedContentItem) : St × Except KErr Unit :=
  match prepared.find? fun m => m.codename == item.codename with
  | none => (st, .error (.jsError ("Invalid content item for codename " ++ item.codename)))
  | some upsertedContentItem =>
    match prepareLanguageVariantForImportAsync env workflows st item with
    | (st1, .error e) => (st1, .error e)
    | (st1, .ok _) =>
      match mapElements env item.elements with
      | .error e => (st1, .error e)
      | .ok contracts =>
        let st2 := pushOp st1 (.upsertLanguageVariant upsertedContentItem.codename item.language)
        match env.upsertLanguageVariant upsertedContentItem.codename item.language contracts with
        | .error e => (st2, .error e)
        | .ok _ =>
          let st3 := processItem st2 .upsert .languageVariant .variantList (.parsedItem item)
            (some upsertedContentItem.id) none (some item.codename)
          if wsTruthy item.workflow_step then
            let stepCodename := item.workflow_step.getD ""
            if doesWorkflowStepCodenameRepresentPublishedStep stepCodename workflows then
              let st4 := pushOp st3 (.publishLanguageVariant item.codename item.language)
              match env.publishLanguageVariant item.codename item.language with
              | .error e => (st4, .error e)
              | .ok _ =>
                (processItem st4 .publish .languageVariant .variantList (.parsedItem item)
                  (some upsertedContentItem.id) none (some item.codename), .ok ())
            else if doesWorkflowStepCodenameRepresentArchivedStep stepCodename workflows then
              match getWorkflowForGivenStepByCodename stepCodename workflows with
              | .error e => (st3, .error e)
              | .ok workflow =>
                let st4 := pushOp st3
                  (.changeWorkflowOfLanguageVariant item.codename item.language
                    workflow.archivedStep.codename workflow.codename)
                match env.changeWorkflowOfLanguageVariant item.codename item.language
                    workflow.archivedStep.codename workflow.codename with
                | .error e => (st4, .error e)
                | .ok _ =>
                  (processItem st4 .archive .languageVariant .variantList (.parsedItem item)
                    (some upsertedContentItem.id) none (some item.codename), .ok ())
            else
              match getWorkflowForGivenStepByCodename stepCodename workflows with
              | .error e => (st3, .error e)
              | .ok workflow =>
                let st4 := pushOp st3
                  (.changeWorkflowOfLanguageVariant item.codename item.language
                    stepCodename workflow.codename)
                match env.changeWorkflowOfLanguageVariant item.codename item.language
                    stepCodename workflow.codename with
                | .error e => (st4, .error e)
                | .ok _ =>
                  (processItem st4 .changeWorkflowStep .languageVariant .variantList
                    (.parsedItem item) (some upsertedContentItem.id) none (some item.codename),
                    .ok ())
          else (st3, .ok ())

/-- Pass B over all items, with the same skip-vs-rethrow policy as pass A. -/
def passB (env : Env) (skipFailedItems : Bool) (workflows : List Workflow)
    (prepared : List ContentItem) : List IParsedContentItem → St → St × Except KErr Unit
  | [], st => (st, .ok ())
  | item :: rest, st =>
    if wsTruthy item.workflow_step then
      match passBItemBody env workflows prepared st item with
      | (st1, .ok _) => passB env skipFailedItems workflows prepared rest st1
      | (st1, .error e) =>
        if skipFailedItems then passB env skipFailedItems workflows prepared rest st1
        else (st1, .error e)
    else passB env skipFailedItems workflows prepared rest st

/-- `importContentItemsAsync`: list workflows and collections, then run the
two passes over the full item set (pass A strictly before pass B). -/
def importContentItemsAsync (env : Env) (skipFailedItems : Bool)
    (items : List IParsedContentItem) (st : St) : St × Except KErr Unit :=
  let st := pushOp st .listWorkflows
  match env.listWorkflows with
  | .error e => (st, .error e)
  | .ok workflows =>
    let st := pushOp st .listCollections
    match env.listCollections with
    | .error e => (st, .error e)
    | .ok collections =>
      match passA env skipFailedItems collections items st [] with
      | (st1, _, .error e) => (st1, .error e)
      | (st1, prepared, .ok _) => passB env skipFailedItems workflows prepared items st1

/-! ## Orchestrator (`importAsync`) -/

/-- Caller-supplied configuration of the import service (the fields the
model uses: filter predicates and the skip-failed-items flag). -/
structure IImportConfig where
  skipFailedItems : Bool
  canImportAsset : Option (IImportAsset → Bool)
  canImportContentItem : Option (IParsedContentItem → Bool)

/-- A serialized import source (`IImportSource`); the optional tool version
only drives a console warning, which is not modelled. -/
structure IImportSource where
  version : Option String
  assets : List IImportAsset
  items : List IParsedContentItem

/-- `removeSkippedItemsFromImport` on assets: every asset whose `assetId`
matches some asset rejected by the predicate is removed (the source filters
the working list once per rejected asset, keyed by `assetId`). -/
def removeSkippedAssets (config : IImportConfig) (assets : List IImportAsset) :
    List IImportAsset :=
  match config.canImportAsset with
  | none => assets
  | some pred =>
    let badIds := (assets.filter fun a => !pred a).map fun a => a.assetId
    assets.filter fun a => !badIds.contains a.assetId

/-- `removeSkippedItemsFromImport` on content items (keyed by codename). -/
def removeSkippedContentItems (config : IImportConfig) (items : List IParsedContentItem) :
    List IParsedContentItem :=
  match config.canImportContentItem with
  | none => items
  | some pred =>
    let badCodenames := (items.filter fun i => !pred i).map fun i => i.codename
    items.filter fun i => !badCodenames.contains i.codename

/-- The error returned by a failed run: `handleError` of `global-helper.ts`
re-throws a Kontent error as a classified record and anything else as-is. -/
inductive HandledError where
  | classified (message errorCode requestId : String) (validationErrors : String)
  | raw (e : KErr)
deriving DecidableEq

/-- `join(', ')` of the validation error messages. -/
def joinComma : List String → String
  | [] => ""
  | [s] => s
  | s :: rest => s ++ ", " ++ joinComma rest

/-- `handleError`: classify a Kontent error into a record whose message is
prefixed with `Failed to import data with error: `, and re-throw. -/
def handleErrorFn : KErr → HandledError
  | .kontent message errorCode requestId validationErrors _ =>
    .classified ("Failed to import data with error: " ++ message) errorCode requestId
      (joinComma validationErrors)
  | e => .raw e

/-- `importAsync`: filter the working set, then run assets and content items
in order inside one `try`; the `catch` block calls `handleImportError`,
which re-throws the classified error, so a failed run rejects with that
error and the accumulated `importedItems` ledger is returned only on the
success path.  The trace is returned in both cases (ghost observability;
the source has no such value). -/
def importAsync (env : Env) (config : IImportConfig) (source : IImportSource) :
    List Op × Except HandledError (List IImportItemResult) :=
  let assets := removeSkippedAssets config source.assets
  let items := removeSkippedContentItems config source.items
  let st : St := ⟨[], []⟩
  let afterAssets := if assets.isEmpty then (st, Except.ok ()) else importAssetsAsync env assets st
  match afterAssets with
  | (st1, .error e) => (st1.trace, .error (handleErrorFn e))
  | (st1, .ok _) =>
    let afterItems :=
      if items.isEmpty then (st1, Except.ok ())
      else importContentItemsAsync env config.skipFailedItems items st1
    match afterItems with
    | (st2, .error e) => (st2.trace, .error (handleErrorFn e))
    | (st2, .ok _) => (st2.trace, .ok st2.ledger)

/-! ## Operation classification and concrete fixtures -/

/-- Is the operation a workflow-transition call on a language variant
(publish, change-workflow, change-step or create-new-version)? -/
def isWorkflowTransitionOp : Op → Bool
  | .publishLanguageVariant _ _ => true
  | .changeWorkflowOfLanguageVariant _ _ _ _ => true
  | .changeWorkflowStepOfLanguageVariant _ _ _ => true
  | .createNewVersionOfLanguageVariant _ _ => true
  | _ => false

/-- A 404 response of a `view`-style call. -/
def notFoundErr : KErr := .kontent "The requested entity was not found" "" "" [] (some 404)

/-- A single-workflow fixture: one ordinary step plus the published and
archived steps. -/
def sampleWorkflow : Workflow :=
  ⟨"default", [⟨"s1", "draft"⟩], ⟨"p1", "published"⟩, ⟨"a1", "archived"⟩⟩

/-- A fixture environment: an empty target project on which every write
succeeds. -/
def baseEnv : Env := {
  viewAssetByExternalId := fun _ => .error notFoundErr
  uploadBinaryFile := fun _ _ _ => .ok ⟨"bin1"⟩
  addAsset := fun _ _ => .ok ⟨"na1"⟩
  viewContentItem := fun _ => .error notFoundErr
  addContentItem := fun n _ c _ => .ok ⟨"ci1", n, c, "colid"⟩
  upsertContentItem := fun c n _ => .ok ⟨"ci1", n, c, "colid"⟩
  listWorkflows := .ok [sampleWorkflow]
  listCollections := .ok [⟨"colid", "main"⟩]
  viewLanguageVariant := fun _ _ => .error notFoundErr
  upsertLanguageVariant := fun _ _ _ => .ok ⟨"s1"⟩
  publishLanguageVariant := fun _ _ => .ok ()
  changeWorkflowOfLanguageVariant := fun _ _ _ _ => .ok ()
  changeWorkflowStepOfLanguageVariant := fun _ _ _ => .ok ()
  createNewVersionOfLanguageVariant := fun _ _ => .ok ()
  transformElement := fun _ => some ⟨.null⟩ }

/-- A source asset fixture. -/
def sampleAsset : IImportAsset := ⟨"a-ext", "photo.png", some "image/png", "BIN"⟩

/-- The fixture environment in which the asset already exists in the
target. -/
def envAssetExists : Env :=
  { baseEnv with viewAssetByExternalId := fun _ => .ok ⟨"existing1"⟩ }

/-- The fixture environment in which the asset check itself fails with a
non-404 error. -/
def envAssetFail : Env :=
  { baseEnv with viewAssetByExternalId := fun _ => .error (.jsError "network failure") }

/-- A published source content item. -/
def itemPub : IParsedContentItem := ⟨"it1", "Item 1", "type1", "main", "en", some "published", []⟩

/-- The same source item, recorded under a different collection. -/
def itemOtherCol : IParsedContentItem :=
  ⟨"it1", "Item 1", "type1", "other", "en", some "published", []⟩

/-- Target collections fixture: the existing item lives in `main`, the
source records `other`. -/
def sampleCollections : List Collection := [⟨"colid", "main"⟩, ⟨"colid2", "other"⟩]

/-- The fixture environment in which the content item already exists in the
target (same name, collection `main`). -/
def envItemFound : Env :=
  { baseEnv with
    viewContentItem := fun _ => .ok ⟨"ci1", "Item 1", "it1", "colid"⟩
    listCollections := .ok sampleCollections }

/-- The fixture environment with no collections in the target, making
`shouldUpdateContentItem` throw `Invalid collection`. -/
def envNoCollections : Env := { envItemFound with listCollections := .ok [] }

/-- The fixture environment in which listing workflows fails after the
asset stage succeeded. -/
def envWfFail : Env :=
  { envAssetExists with listWorkflows := .error (.kontent "boom" "EC" "RQ" ["v1", "v2"] (some 500)) }

/-- Configuration fixture: no filters, abort on item failures. -/
def cfgNoSkip : IImportConfig := ⟨false, none, none⟩

/-- An import-source fixture with one asset and one item. -/
def sampleSource : IImportSource := ⟨none, [sampleAsset], [itemPub]⟩

/-! ## Lemmas: the rich-text scanner -/

theorem captureTo_eq {t cap r : List Char} (h : captureTo t = some (cap, r)) :
    t = cap ++ '"' :: r := by
  induction t generalizing cap with
  | nil => simp [captureTo] at h
  | cons c rest ih =>
    unfold captureTo at h
    split at h
    · rename_i hc
      injection h with h
      injection h with h1 h2
      subst hc h2
      rw [← h1]
      rfl
    · split at h
      · cases hrec : captureTo rest with
        | none => rw [hrec] at h; exact absurd h (by simp)
        | some p =>
          obtain ⟨cap1, r1⟩ := p
          rw [hrec] at h
          injection h with h
          injection h with h1 h2
          subst h2
          rw [← h1]
          simpa using congrArg (c :: ·) (ih hrec)
      · exact absurd h (by simp)

theorem dropLit_eq {p s r : List Char} (h : dropLit p s = some r) : s = p ++ r := by
  induction p generalizing s with
  | nil => simpa [dropLit] using h
  | cons c cs ih =>
    cases s with
    | nil => exact absurd h (by simp [dropLit])
    | cons c1 s1 =>
      unfold dropLit at h
      split at h
      · rename_i hc
        subst hc
        simpa using ih h
      · exact absurd h (by simp)

theorem matchAt_eq {pat s cap r : List Char} (h : matchAt pat s = some (cap, r)) :
    s = fullMarker pat cap ++ r := by
  unfold matchAt at h
  cases hd : dropLit pat s with
  | none => rw [hd] at h; exact absurd h (by simp)
  | some rest =>
    rw [hd] at h
    have h1 := dropLit_eq hd
    have h2 := captureTo_eq h
    simp [fullMarker, h1, h2]

theorem matchAt_length {pat s cap r : List Char} (h : matchAt pat s = some (cap, r)) :
    r.length < s.length := by
  have h1 := matchAt_eq h
  rw [h1]
  simp [fullMarker]
  omega

theorem scanF_fuel {pat : List Char} {m n : Nat} {s : List Char}
    (hm : s.length ≤ m) (hn : s.length ≤ n) : scanF pat m s = scanF pat n s := by
  induction m generalizing n s with
  | zero =>
    cases s with
    | nil => cases n <;> rfl
    | cons c rest => simp at hm
  | succ m ih =>
    cases s with
    | nil => cases n <;> rfl
    | cons c rest =>
      cases n with
      | zero => simp at hn
      | succ n =>
        cases hmt : matchAt pat (c :: rest) with
        | none =>
          have h1 : rest.length ≤ m := by simp at hm; omega
          have h2 : rest.length ≤ n := by simp at hn; omega
          simp only [scanF, hmt]
          rw [ih h1 h2]
        | some p =>
          obtain ⟨cap, after⟩ := p
          have hlen := matchAt_length hmt
          simp at hlen hm hn
          have h1 : after.length ≤ m := by omega
          have h2 : after.length ≤ n := by omega
          simp only [scanF, hmt]
          rw [ih h1 h2]

theorem scanF_join {pat : List Char} {fuel : Nat} {s : List Char} (h : s.length ≤ fuel) :
    renderChunks (fullMarker pat) (scanF pat fuel s) = s := by
  induction fuel generalizing s with
  | zero =>
    cases s with
    | nil => rfl
    | cons c rest => simp at h
  | succ fuel ih =>
    cases s with
    | nil => rfl
    | cons c rest =>
      cases hmt : matchAt pat (c :: rest) with
      | none =>
        have h1 : rest.length ≤ fuel := by simp at h; omega
        simp only [scanF, hmt, renderChunks]
        rw [ih h1]
      | some p =>
        obtain ⟨cap, after⟩ := p
        have hlen := matchAt_length hmt
        simp at hlen h
        have h1 : after.length ≤ fuel := by omega
        simp only [scanF, hmt, renderChunks]
        rw [ih h1]
        exact (matchAt_eq hmt).symm

theorem renderChunks_congr {f g : List Char → List Char}
    {chunks : List (Sum Char (List Char))}
    (h : ∀ cap, Sum.inr cap ∈ chunks → f cap = g cap) :
    renderChunks f chunks = renderChunks g chunks := by
  induction chunks with
  | nil => rfl
  | cons chunk rest ih =>
    cases chunk with
    | inl c =>
      simp only [renderChunks]
      rw [ih fun cap hc => h cap (List.mem_cons_of_mem _ hc)]
    | inr cap =>
      simp only [renderChunks]
      rw [h cap (List.mem_cons_self _ _), ih fun cap1 hc => h cap1 (List.mem_cons_of_mem _ hc)]

theorem capturesOf_mem {pat s : List Char} {cap : List Char} :
    cap ∈ capturesOf pat s ↔ Sum.inr cap ∈ scanMarkers pat s := by
  unfold capturesOf
  rw [List.mem_filterMap]
  constructor
  · rintro ⟨a, ha, hc⟩
    cases a with
    | inl c => simp [chunkCapture] at hc
    | inr cap1 =>
      simp [chunkCapture] at hc
      rw [← hc]
      exact ha
  · intro ha
    exact ⟨Sum.inr cap, ha, rfl⟩

theorem replaceAllMarkers_eq_self {pat : List Char} {f : List Char → List Char} {s : List Char}
    (h : ∀ cap ∈ capturesOf pat s, f cap = fullMarker pat cap) :
    replaceAllMarkers pat f s = s := by
  unfold replaceAllMarkers
  rw [renderChunks_congr fun cap hc => h cap (capturesOf_mem.mpr hc)]
  exact scanF_join (Nat.le_refl _)

/-! ## Lemmas: the five marker passes -/

theorem idChunk_miss {items : List IImportItemResult} {pat attr cap : List Char}
    (h : cap = [] ∨ tryFindNewId items (.str (String.mk cap)) = none ∨
      tryFindNewId items (.str (String.mk cap)) = some "") :
    idChunk items pat attr cap = fullMarker pat cap := by
  unfold idChunk
  rcases h with h | h | h
  · simp [h]
  · by_cases hc : cap = [] <;> simp [hc, h]
  · by_cases hc : cap = [] <;> simp [hc, h]

theorem mk_eq_empty_iff {cap : List Char} : String.mk cap = "" ↔ cap = [] := by
  constructor
  · intro h
    have : (String.mk cap).data = ("" : String).data := by rw [h]
    simpa using this
  · intro h
    rw [h]

theorem idChunk_fixed {items : List IImportItemResult} {pat attr cap : List Char}
    (hpat : pat = attr ++ ('=' :: ['"']))
    (h : idCaptureFixed items cap = true) :
    idChunk items pat attr cap = fullMarker pat cap := by
  unfold idCaptureFixed at h
  by_cases hc : cap = []
  · unfold idChunk
    simp [hc]
  · cases htr : tryFindNewId items (.str (String.mk cap)) with
    | none => exact idChunk_miss (Or.inr (Or.inl htr))
    | some s =>
      rw [htr] at h
      simp [hc] at h
      rcases h with h | h
      · exact idChunk_miss (Or.inr (Or.inr (by rw [htr, h])))
      · unfold idChunk
        subst h
        have hne : String.mk cap ≠ "" := fun hcontra => hc (mk_eq_empty_iff.mp hcontra)
        simp [hc, htr, hne, hitMarker, fullMarker, hpat, String.toList]

theorem codenameChunk_miss {items : List IImportItemResult} {pat attr cap : List Char}
    (hne : cap ≠ [])
    (h : tryFindNewIdForCodename items (String.mk cap) = none ∨
      tryFindNewIdForCodename items (String.mk cap) = some "") :
    codenameChunk items pat attr cap = hitMarker attr "ahoj" := by
  unfold codenameChunk
  rcases h with h | h <;> simp [hne, h]

theorem replaceIdWithRegexL_allMiss {items : List IImportItemResult} {pat attr s : List Char}
    (h : ∀ cap ∈ capturesOf pat s, cap = [] ∨
      tryFindNewId items (.str (String.mk cap)) = none ∨
      tryFindNewId items (.str (String.mk cap)) = some "") :
    replaceIdWithRegexL items pat attr s = s :=
  replaceAllMarkers_eq_self fun cap hc => idChunk_miss (h cap hc)

theorem replaceIdWithRegexL_fixed {items : List IImportItemResult} {pat attr s : List Char}
    (hpat : pat = attr ++ ('=' :: ['"']))
    (h : ∀ cap ∈ capturesOf pat s, idCaptureFixed items cap = true) :
    replaceIdWithRegexL items pat attr s = s :=
  replaceAllMarkers_eq_self fun cap hc => idChunk_fixed hpat (h cap hc)

theorem replaceCodename_noMarkers {items : List IImportItemResult} {pat attr s : List Char}
    (h : (capturesOf pat s).isEmpty = true) :
    replaceCodenameWithRegexL items pat attr s = s := by
  apply replaceAllMarkers_eq_self
  intro cap hc
  rw [List.isEmpty_iff] at h
  rw [h] at hc
  simp at hc

theorem replaceCodename_allMiss {items : List IImportItemResult} {pat attr s : List Char}
    (h : ∀ cap ∈ capturesOf pat s, cap ≠ [] ∧
      (tryFindNewIdForCodename items (String.mk cap) = none ∨
        tryFindNewIdForCodename items (String.mk cap) = some "")) :
    replaceCodenameWithRegexL items pat attr s =
      renderChunks (fun _ => hitMarker attr "ahoj") (scanMarkers pat s) := by
  unfold replaceCodenameWithRegexL replaceAllMarkers
  apply renderChunks_congr
  intro cap hc
  have h1 := h cap (capturesOf_mem.mpr hc)
  exact codenameChunk_miss h1.1 h1.2

theorem replaceIdsInRichTextL_resolved {items : List IImportItemResult} {l : List Char}
    (h : resolvedRichText items l = true) :
    replaceIdsInRichTextL items l = l := by
  unfold resolvedRichText at h
  simp only [Bool.and_eq_true, List.all_eq_true] at h
  obtain ⟨⟨⟨⟨h0, h1⟩, h2⟩, h3⟩, h4⟩ := h
  show replaceIdWithRegexL items dataIdPat dataIdAttr
    (replaceIdWithRegexL items imageIdPat "data-image-id".toList
      (replaceIdWithRegexL items assetIdPat "data-asset-id".toList
        (replaceIdWithRegexL items itemIdPat "data-item-id".toList
          (replaceCodenameWithRegexL items codenamePat dataIdAttr l)))) = l
  rw [replaceCodename_noMarkers h0,
    @replaceIdWithRegexL_fixed items itemIdPat "data-item-id".toList l rfl h1,
    @replaceIdWithRegexL_fixed items assetIdPat "data-asset-id".toList l rfl h2,
    @replaceIdWithRegexL_fixed items imageIdPat "data-image-id".toList l rfl h3,
    @replaceIdWithRegexL_fixed items dataIdPat dataIdAttr l rfl h4]

theorem replaceIdsInRichText_resolved {items : List IImportItemResult} {s : String}
    (h : resolvedRichText items s.toList = true) :
    replaceIdsInRichText items s = s := by
  unfold replaceIdsInRichText
  rw [replaceIdsInRichTextL_resolved h]
  rfl

/-! ## Lemmas: workflow classification -/

theorem workflowLoop_eq_find (codename : String) (ws : List Workflow) :
    workflowLoopByCodename codename ws = ws.find? (workflowMatchesStep codename) := by
  induction ws with
  | nil => rfl
  | cons w rest ih =>
    unfold workflowLoopByCodename
    simp only [List.find?_cons]
    by_cases h1 : w.archivedStep.codename == codename
    · simp [h1, workflowMatchesStep]
    · by_cases h2 : w.publishedStep.codename == codename
      · simp [h1, h2, workflowMatchesStep]
      · cases h3 : w.steps.find? fun m => m.codename == codename with
        | some step =>
          have hmem := List.mem_of_find?_eq_some h3
          have hp := List.find?_some h3
          have hany : (w.steps.any fun m => m.codename == codename) = true :=
            List.any_eq_true.mpr ⟨step, hmem, hp⟩
          simp [h1, h2, h3, workflowMatchesStep, hany]
        | none =>
          have hany : (w.steps.any fun m => m.codename == codename) = false := by
            rw [List.any_eq_false]
            intro step hmem hp
            rw [List.find?_eq_none] at h3
            exact h3 step hmem hp
          simp [h1, h2, h3, workflowMatchesStep, hany, ih]

/-! ## Claim C3 -/

/-- C3: classifying a workflow-step codename checks every workflow of the
target project in list order, matching against the published step, the
archived step and the ordinary step list of each, and the first matching
workflow wins; if no workflow matches, the designated default workflow is
used as the fallback, and if that is absent too the operation fails with
the fatal `Missing default workflow` error. -/
theorem C3_step_classification (codename : String) (workflows : List Workflow) :
    (∀ w, workflows.find? (workflowMatchesStep codename) = some w →
      getWorkflowForGivenStepByCodename codename workflows = .ok w) ∧
    (workflows.find? (workflowMatchesStep codename) = none →
      (∀ d, findDefaultWorkflow workflows = some d →
        getWorkflowForGivenStepByCodename codename workflows = .ok d) ∧
      (findDefaultWorkflow workflows = none →
        getWorkflowForGivenStepByCodename codename workflows =
          .error (.jsError "Missing default workflow"))) := by
  unfold getWorkflowForGivenStepByCodename
  rw [workflowLoop_eq_find]
  refine ⟨fun w hw => ?_, fun hn => ⟨fun d hd => ?_, fun hd => ?_⟩⟩
  · rw [hw]
  · rw [hn, hd]
  · rw [hn, hd]

/-- Witness for C3: with two workflows of which only the second carries the
codename `arch` (in its archived step), the second wins; with no match the
(case-insensitively named) default workflow is returned; with no match and
no default workflow the fatal error is thrown. -/
theorem C3_step_classification_witness :
    getWorkflowForGivenStepByCodename "arch"
      [⟨"first", [⟨"s1", "draft"⟩], ⟨"p1", "pub"⟩, ⟨"a1", "arc1"⟩⟩,
       ⟨"second", [], ⟨"p2", "pub2"⟩, ⟨"a2", "arch"⟩⟩] =
      .ok ⟨"second", [], ⟨"p2", "pub2"⟩, ⟨"a2", "arch"⟩⟩ ∧
    getWorkflowForGivenStepByCodename "nope"
      [⟨"Default", [], ⟨"p1", "pub"⟩, ⟨"a1", "arc1"⟩⟩] =
      .ok ⟨"Default", [], ⟨"p1", "pub"⟩, ⟨"a1", "arc1"⟩⟩ ∧
    getWorkflowForGivenStepByCodename "nope"
      [⟨"first", [], ⟨"p1", "pub"⟩, ⟨"a1", "arc1"⟩⟩] =
      .error (.jsError "Missing default workflow") :=
  ⟨(C3_step_classification "arch" _).1 _ (by decide),
   ((C3_step_classification "nope" _).2 (by decide)).1 _ (by decide),
   ((C3_step_classification "nope" _).2 (by decide)).2 (by decide)⟩

/-! ## Claim C2 -/

/-- C2 (amended): in each id-keyed pass, a marker whose capture is empty,
does not resolve, or resolves to an empty import id is left byte-identical;
in the codename pass, every marker whose (nonempty) codename does not
resolve (or resolves to an empty import id) is rewritten to the fixed
placeholder marker `data-id="ahoj"`, so no such marker keeps its source
codename; a codename marker with an empty capture is left unchanged by the
`if (b)` truthiness guard (see the counterexample). -/
theorem C2_unresolved_markers (items : List IImportItemResult) :
    (∀ pat attr s, (∀ cap ∈ capturesOf pat s, cap = [] ∨
        tryFindNewId items (.str (String.mk cap)) = none ∨
        tryFindNewId items (.str (String.mk cap)) = some "") →
      replaceIdWithRegexL items pat attr s = s) ∧
    (∀ s, (∀ cap ∈ capturesOf codenamePat s, cap ≠ [] ∧
        (tryFindNewIdForCodename items (String.mk cap) = none ∨
          tryFindNewIdForCodename items (String.mk cap) = some "")) →
      replaceCodenameWithRegexL items codenamePat dataIdAttr s =
        renderChunks (fun _ => hitMarker dataIdAttr "ahoj") (scanMarkers codenamePat s)) :=
  ⟨fun _ _ _ h => replaceIdWithRegexL_allMiss h,
   fun _ h => replaceCodename_allMiss h⟩

/-- Witness for C2 (amended): an unresolvable `data-item-id` marker is left
byte-identical, and an unresolvable nonempty `data-codename` marker becomes
the placeholder marker. -/
theorem C2_unresolved_markers_witness :
    replaceIdWithRegexL [] itemIdPat "data-item-id".toList
        "<p data-item-id=\"x\"></p>".toList =
      "<p data-item-id=\"x\"></p>".toList ∧
    replaceCodenameWithRegexL [] codenamePat dataIdAttr
        "<p data-codename=\"x\"></p>".toList =
      renderChunks (fun _ => hitMarker dataIdAttr "ahoj")
        (scanMarkers codenamePat "<p data-codename=\"x\"></p>".toList) :=
  ⟨(C2_unresolved_markers []).1 itemIdPat "data-item-id".toList _ (by decide),
   (C2_unresolved_markers []).2 _ (by decide)⟩

/-- Counterexample to C2 as stated: the codename marker `data-codename=""`
carries a codename (the empty string) that does not resolve through the
(empty) translation table, yet the rewrite leaves the marker byte-identical
— still carrying its original source value — instead of substituting the
placeholder: the `if (b)` truthiness guard of `replaceCodenameWithRegex`
skips empty captures. -/
theorem C2_empty_codename_cex :
    tryFindNewIdForCodename [] "" = none ∧
    replaceIdsInRichText [] "<p data-codename=\"\"></p>" =
      "<p data-codename=\"\"></p>" := by
  constructor
  · rfl
  · decide

/-! ## Lemmas: object access and well-formedness -/

theorem jsGet_eq_getBinding : ∀ (o : JSObj) (k : String),
    jsGet o k = (getBinding o k).getD .undef
  | .nil, _ => rfl
  | .cons k1 v1 rest, k => by
    unfold jsGet getBinding
    by_cases h : k1 = k <;> simp [h, jsGet_eq_getBinding rest k]

theorem jsGet_some {o : JSObj} {k : String} {v : JSVal}
    (h : jsGet o k = v) (hne : v ≠ .undef) : getBinding o k = some v := by
  rw [jsGet_eq_getBinding] at h
  cases hb : getBinding o k with
  | none => rw [hb] at h; exact absurd h.symm hne
  | some v1 => rw [hb] at h; rw [← h]; rfl

theorem jsSet_self : ∀ (o : JSObj) (k : String) (v : JSVal),
    getBinding o k = some v → jsSet o k v = o
  | .nil, k, v, h => by simp [getBinding] at h
  | .cons k1 v1 rest, k, v, h => by
    unfold getBinding at h
    unfold jsSet
    by_cases hk : k1 = k
    · simp [hk] at h ⊢
      exact h.symm
    · simp [hk] at h ⊢
      exact jsSet_self rest k v h

theorem objSuffix_hasKey_mono {o whole : JSObj} {k : String} (h : ObjSuffix o whole)
    (hk : hasKey o k = true) : hasKey whole k = true := by
  induction h with
  | refl => exact hk
  | tail k1 v1 rest1 o1 hsub ih =>
    unfold hasKey
    simp only [Bool.or_eq_true]
    exact Or.inr (ih hk)

theorem objSuffix_tail_of_cons {k : String} {v : JSVal} {rest whole : JSObj}
    (h : ObjSuffix (.cons k v rest) whole) : ObjSuffix rest whole := by
  generalize ho : JSObj.cons k v rest = o at h
  induction h with
  | refl => rw [← ho]; exact ObjSuffix.tail k v rest rest (ObjSuffix.refl rest)
  | tail k1 v1 rest1 o1 hsub ih =>
    exact ObjSuffix.tail k1 v1 rest1 _ (ih ho)

theorem wf_suffix_getBinding {whole : JSObj} {k : String} {v : JSVal} {rest : JSObj}
    (hwf : wfObj whole = true) (hsuf : ObjSuffix (.cons k v rest) whole) :
    getBinding whole k = some v := by
  generalize ho : JSObj.cons k v rest = o at hsuf
  induction hsuf with
  | refl => rw [← ho]; simp [getBinding]
  | tail k1 v1 rest1 o1 hsub ih =>
    unfold wfObj at hwf
    simp only [Bool.and_eq_true] at hwf
    obtain ⟨⟨hnk, _⟩, hwfrest⟩ := hwf
    have hk1 : k1 ≠ k := by
      intro hcontra
      subst hcontra
      have : hasKey rest1 k1 = true := by
        apply objSuffix_hasKey_mono hsub
        rw [← ho]
        simp [hasKey]
      rw [this] at hnk
      simp at hnk
    unfold getBinding
    simp [hk1, ih hwfrest ho]

theorem wfObj_suffix {fields whole : JSObj} (hwf : wfObj whole = true)
    (h : ObjSuffix fields whole) : wfObj fields = true := by
  induction h with
  | refl => exact hwf
  | tail k1 v1 rest1 o1 hsub ih =>
    unfold wfObj at hwf
    simp only [Bool.and_eq_true] at hwf
    exact ih hwf.2

theorem wf_getBinding_val : ∀ (whole : JSObj) (k : String) (v : JSVal),
    wfObj whole = true → getBinding whole k = some v → wfJS v = true
  | .nil, k, v, _, h => by simp [getBinding] at h
  | .cons k1 v1 rest, k, v, hwf, h => by
    unfold wfObj at hwf
    simp only [Bool.and_eq_true] at hwf
    unfold getBinding at h
    by_cases hk : k1 = k
    · simp [hk] at h
      rw [← h]
      exact hwf.1.2
    · simp [hk] at h
      exact wf_getBinding_val rest k v hwf.2 h

/-- The delimited-string step is the identity on a resolved binding. -/
theorem stringStep_resolved {items : List IImportItemResult} {whole : JSObj} {k : String}
    {v : JSVal} (hget : getBinding whole k = some v)
    (hstr : strCondition items v = true) :
    stringStep items whole k v = whole := by
  cases v with
  | str s =>
    have hst : (!isDelimited s || resolvedRichText items s.toList) = true := hstr
    unfold stringStep
    show (if isDelimited s then jsSet whole k (JSVal.str (replaceIdsInRichText items s))
      else whole) = whole
    by_cases hdel : isDelimited s
    · have hresrt : resolvedRichText items s.toList = true := by
        rw [hdel] at hst
        simpa using hst
      rw [if_pos hdel, replaceIdsInRichText_resolved hresrt]
      exact jsSet_self whole k (.str s) hget
    · rw [if_neg hdel]
  | num n => rfl
  | boolean b => rfl
  | null => rfl
  | undef => rfl
  | arr xs => rfl
  | obj fs => rfl

/-- The id-resolution step is the identity when the value under the
property `id` is fixed under resolution. -/
theorem idStep_resolved {items : List IImportItemResult} {whole : JSObj} {k : String}
    (hid : (jsToLower k != "id" || idValueFixed items (jsGet whole "id")) = true) :
    idStep items whole k = whole := by
  unfold idStep
  by_cases hlow : jsToLower k = "id"
  · rw [if_pos hlow]
    rw [hlow] at hid
    simp only [bne_self_eq_false, Bool.false_or] at hid
    unfold idValueFixed at hid
    cases htr : tryFindNewId items (jsGet whole "id") with
    | none => rfl
    | some snew =>
      rw [htr] at hid
      simp only [Bool.or_eq_true, beq_iff_eq] at hid
      rcases hid with hid | hid
      · simp [hid]
      · show (if snew = "" then whole else jsSet whole "id" (JSVal.str snew)) = whole
        rcases ne_or_eq snew "" with hne | hne
        · rw [if_neg hne]
          exact jsSet_self whole "id" (.str snew) (jsGet_some hid (by simp))
        · simp [hne]
  · rw [if_neg hlow]

/-! ## Claim C6: the resolved tree rewrite is the identity -/

mutual

theorem resolved_replaceVal (items : List IImportItemResult) (v : JSVal)
    (hwf : wfJS v = true) (hres : resolvedTree items v = true) :
    replaceIdReferencesWithNewId items v = v := by
  cases v with
  | arr xs =>
    unfold replaceIdReferencesWithNewId
    rw [resolved_replaceArr items xs (by simpa [wfJS] using hwf)
      (by simpa [resolvedTree] using hres)]
  | obj fields =>
    unfold replaceIdReferencesWithNewId
    rw [resolved_objWalk items fields fields (by simpa [wfJS] using hwf)
      (ObjSuffix.refl fields) (by simpa [resolvedTree] using hres)]
  | str s => rfl
  | num n => rfl
  | boolean b => rfl
  | null => rfl
  | undef => rfl

theorem resolved_replaceArr (items : List IImportItemResult) (xs : JSArr)
    (hwf : wfArr xs = true) (hres : resolvedArr items xs = true) :
    replaceIdReferencesArr items xs = xs := by
  cases xs with
  | nil => rfl
  | cons x rest =>
    unfold wfArr at hwf
    unfold resolvedArr at hres
    simp only [Bool.and_eq_true] at hwf hres
    unfold replaceIdReferencesArr
    rw [resolved_replaceVal items x hwf.1 hres.1, resolved_replaceArr items rest hwf.2 hres.2]

theorem resolved_objWalk (items : List IImportItemResult) (fields whole : JSObj)
    (hwf : wfObj whole = true) (hsuf : ObjSuffix fields whole)
    (hres : resolvedFields items fields whole = true) :
    objWalk items fields whole = whole := by
  cases fields with
  | nil => rfl
  | cons k v rest =>
    unfold resolvedFields at hres
    simp only [Bool.and_eq_true] at hres
    obtain ⟨⟨⟨hstr, hid⟩, hval⟩, hrest⟩ := hres
    have hget : getBinding whole k = some v := wf_suffix_getBinding hwf hsuf
    have hjsget : jsGet whole k = v := by rw [jsGet_eq_getBinding, hget]; rfl
    have hsufrest : ObjSuffix rest whole := objSuffix_tail_of_cons hsuf
    show objWalk items (.cons k v rest) whole = whole
    unfold objWalk
    simp only [hjsget, stringStep_resolved hget hstr, idStep_resolved hid]
    by_cases hobj : isObjectLike v = true
    · simp only [if_pos hobj,
        resolved_replaceVal items v (wf_getBinding_val whole k v hwf hget) hval,
        jsSet_self whole k v hget]
      exact resolved_objWalk items rest whole hwf hsufrest hrest
    · simp only [if_neg hobj]
      exact resolved_objWalk items rest whole hwf hsufrest hrest

end

/-- C6: the rich-text/tree reference rewrite is idempotent once all
references are target-valid: a rich-text payload whose markers all already
carry their translated target values (no codename markers remain, and
every id-keyed capture misses the table or resolves to itself) is returned
unchanged, and a well-formed value tree all of whose embedded references
are already target-valid is returned unchanged by
`replaceIdReferencesWithNewId` (a no-op). -/
theorem C6_resolved_rewrite_noop (items : List IImportItemResult) :
    (∀ s : String, resolvedRichText items s.toList = true →
      replaceIdsInRichText items s = s) ∧
    (∀ v : JSVal, wfJS v = true → resolvedTree items v = true →
      replaceIdReferencesWithNewId items v = v) :=
  ⟨fun _ h => replaceIdsInRichText_resolved h,
   fun v hwf hres => resolved_replaceVal items v hwf hres⟩

/-- Witness for C6: a fully-resolved rich-text payload (its `data-item-id`
already carries a target id that is no table key) and a fully-resolved
object tree are both returned unchanged. -/
theorem C6_resolved_rewrite_noop_witness :
    replaceIdsInRichText [⟨.variantList, .variantList, some "NEW1", some "old1", some "cn1"⟩]
      "<p data-item-id=\"NEW1\"></p>" = "<p data-item-id=\"NEW1\"></p>" ∧
    replaceIdReferencesWithNewId
      [⟨.variantList, .variantList, some "NEW1", some "old1", some "cn1"⟩]
      (.obj (.cons "id" (.str "x")
        (.cons "name" (.str "<p data-item-id=\"NEW1\"></p>") .nil))) =
      .obj (.cons "id" (.str "x")
        (.cons "name" (.str "<p data-item-id=\"NEW1\"></p>") .nil)) :=
  ⟨(C6_resolved_rewrite_noop _).1 _ (by decide),
   (C6_resolved_rewrite_noop _).2 _ (by decide) (by decide)⟩

/-! ## Claim C5 -/

/-- C5: for an asset whose external id (the source asset id) already
matches an existing asset in the target, the loop body issues exactly the
two existence checks — no binary upload, no asset-creation call, and no
call that would mutate the existing asset — and records a fetch entry and
a skipUpdate entry for it in the ledger (carrying the existing asset's id
as the import id); the stage then continues with the remaining assets from
exactly that state. -/
theorem C5_existing_asset_skipped (env : Env) (st : St) (asset : IImportAsset)
    (existing : AssetRecord) (rest : List IImportAsset)
    (hfound : env.viewAssetByExternalId asset.assetId = .ok existing) :
    importOneAsset env st asset =
      (⟨ st.ledger ++
          [⟨.assetRecord existing, .asset asset, some existing.id, some asset.assetId, none⟩,
           ⟨.assetRecord existing, .asset asset, some existing.id, some asset.assetId, none⟩],
         st.trace ++
          [.viewAsset asset.assetId, .viewAsset asset.assetId,
           .processed .fetch .asset, .processed .skipUpdate .asset]⟩, .ok ()) ∧
    importAssetsAsync env (asset :: rest) st =
      importAssetsAsync env rest
        ⟨ st.ledger ++
            [⟨.assetRecord existing, .asset asset, some existing.id, some asset.assetId, none⟩,
             ⟨.assetRecord existing, .asset asset, some existing.id, some asset.assetId, none⟩],
           st.trace ++
            [.viewAsset asset.assetId, .viewAsset asset.assetId,
             .processed .fetch .asset, .processed .skipUpdate .asset]⟩ := by
  have h1 : importOneAsset env st asset =
      (⟨ st.ledger ++
          [⟨.assetRecord existing, .asset asset, some existing.id, some asset.assetId, none⟩,
           ⟨.assetRecord existing, .asset asset, some existing.id, some asset.assetId, none⟩],
         st.trace ++
          [.viewAsset asset.assetId, .viewAsset asset.assetId,
           .processed .fetch .asset, .processed .skipUpdate .asset]⟩, .ok ()) := by
    unfold importOneAsset tryViewAsset
    simp [hfound, pushOp, processItem]
  refine ⟨h1, ?_⟩
  have h2 : importAssetsAsync env (asset :: rest) st =
      match importOneAsset env st asset with
      | (st1, .ok _) => importAssetsAsync env rest st1
      | (st1, .error e) => (st1, .error e) := rfl
  rw [h2, h1]

/-- Witness for C5: in the fixture environment where the asset exists, the
loop body produces exactly the fetch + skipUpdate pair. -/
theorem C5_existing_asset_skipped_witness :
    importOneAsset envAssetExists ⟨[], []⟩ sampleAsset =
      (⟨
          [⟨.assetRecord ⟨"existing1"⟩, .asset sampleAsset, some "existing1", some "a-ext", none⟩,
           ⟨.assetRecord ⟨"existing1"⟩, .asset sampleAsset, some "existing1", some "a-ext", none⟩],
         [.viewAsset "a-ext", .viewAsset "a-ext",
          .processed .fetch .asset, .processed .skipUpdate .asset]⟩, .ok ()) ∧
    importAssetsAsync envAssetExists [sampleAsset] ⟨[], []⟩ =
      importAssetsAsync envAssetExists []
        ⟨
            [⟨.assetRecord ⟨"existing1"⟩, .asset sampleAsset, some "existing1", some "a-ext", none⟩,
             ⟨.assetRecord ⟨"existing1"⟩, .asset sampleAsset, some "existing1", some "a-ext", none⟩],
           [.viewAsset "a-ext", .viewAsset "a-ext",
            .processed .fetch .asset, .processed .skipUpdate .asset]⟩ :=
  C5_existing_asset_skipped envAssetExists ⟨[], []⟩ sampleAsset ⟨"existing1"⟩ [] rfl

/-! ## Claim C9: the translation table -/

theorem strictEqOptStr_str {x : Option String} {id : String} :
    strictEqOptStr x (.str id) = true ↔ x = some id := by
  cases x with
  | none => simp [strictEqOptStr]
  | some s => simp [strictEqOptStr]

theorem tryFindNewId_first (pre : List IImportItemResult) (e : IImportItemResult)
    (post : List IImportItemResult) (id : String)
    (he : e.originalId = some id) (hpre : ∀ e1 ∈ pre, e1.originalId ≠ some id) :
    tryFindNewId (pre ++ e :: post) (.str id) = e.importId := by
  induction pre with
  | nil =>
    unfold tryFindNewId
    have : strictEqOptStr e.originalId (.str id) = true := strictEqOptStr_str.mpr he
    simp [List.find?_cons, this]
  | cons e1 rest ih =>
    unfold tryFindNewId
    have h1 : strictEqOptStr e1.originalId (.str id) = false := by
      cases hs : strictEqOptStr e1.originalId (.str id) with
      | false => rfl
      | true => exact absurd (strictEqOptStr_str.mp hs) (hpre e1 (by simp))
    rw [List.cons_append, List.find?_cons, h1]
    exact ih fun e2 hm => hpre e2 (by simp [hm])

theorem tryFindNewIdForCodename_first (pre : List IImportItemResult)
    (e : IImportItemResult) (post : List IImportItemResult) (codename : String)
    (he : e.originalCodename = some codename)
    (hpre : ∀ e1 ∈ pre, e1.originalCodename ≠ some codename) :
    tryFindNewIdForCodename (pre ++ e :: post) codename = e.importId := by
  induction pre with
  | nil =>
    unfold tryFindNewIdForCodename
    simp [List.find?_cons, he]
  | cons e1 rest ih =>
    unfold tryFindNewIdForCodename
    have h1 : (e1.originalCodename == some codename) = false := by
      cases hs : e1.originalCodename == some codename with
      | false => rfl
      | true => exact absurd (by simpa using hs) (hpre e1 (by simp))
    rw [List.cons_append, List.find?_cons, h1]
    exact ih fun e2 hm => hpre e2 (by simp [hm])

theorem tryFindNewId_proj : ∀ (items1 items2 : List IImportItemResult),
    items1.map (fun e => (e.originalId, e.importId)) =
      items2.map (fun e => (e.originalId, e.importId)) →
    ∀ id : JSVal, tryFindNewId items1 id = tryFindNewId items2 id
  | [], [], _, _ => rfl
  | [], _ :: _, h, _ => by simp at h
  | _ :: _, [], h, _ => by simp at h
  | e1 :: rest1, e2 :: rest2, h, id => by
    simp only [List.map_cons, List.cons.injEq, Prod.mk.injEq] at h
    obtain ⟨⟨ho, hi⟩, hrest⟩ := h
    unfold tryFindNewId
    rw [List.find?_cons, List.find?_cons, ho]
    cases hp : strictEqOptStr e2.originalId id with
    | true => simp [hi]
    | false => exact tryFindNewId_proj rest1 rest2 hrest id

theorem tryFindNewIdForCodename_proj : ∀ (items1 items2 : List IImportItemResult),
    items1.map (fun e => (e.originalCodename, e.importId)) =
      items2.map (fun e => (e.originalCodename, e.importId)) →
    ∀ codename : String,
      tryFindNewIdForCodename items1 codename = tryFindNewIdForCodename items2 codename
  | [], [], _, _ => rfl
  | [], _ :: _, h, _ => by simp at h
  | _ :: _, [], h, _ => by simp at h
  | e1 :: rest1, e2 :: rest2, h, codename => by
    simp only [List.map_cons, List.cons.injEq, Prod.mk.injEq] at h
    obtain ⟨⟨ho, hi⟩, hrest⟩ := h
    unfold tryFindNewIdForCodename
    rw [List.find?_cons, List.find?_cons, ho]
    cases hp : e2.originalCodename == some codename with
    | true => simp [hi]
    | false => exact tryFindNewIdForCodename_proj rest1 rest2 hrest codename

theorem tryViewAsset_shape (env : Env) (st : St) (x : String) (e : Option AssetRecord) :
    ∃ r, tryViewAsset env st x e = (pushOp st (.viewAsset x), r) := by
  unfold tryViewAsset
  cases env.viewAssetByExternalId x with
  | ok a => exact ⟨.ok (some a), rfl⟩
  | error err =>
    by_cases hnf : isNotFoundError err = true
    · exact ⟨.ok e, by simp [hnf]⟩
    · exact ⟨.error err, by simp [hnf]⟩

theorem importOneAsset_ledger_extends (env : Env) (st : St) (a : IImportAsset) :
    ∃ d, (importOneAsset env st a).1.ledger = st.ledger ++ d := by
  unfold importOneAsset
  obtain ⟨r1, h1⟩ := tryViewAsset_shape env st a.assetId none
  simp only [h1]
  cases r1 with
  | error e => exact ⟨[], by simp [pushOp]⟩
  | ok ex1 =>
    obtain ⟨r2, h2⟩ := tryViewAsset_shape env (pushOp st (.viewAsset a.assetId)) a.assetId ex1
    simp only [h2]
    cases r2 with
    | error e => exact ⟨[], by simp [pushOp]⟩
    | ok ex2 =>
      cases ex2 with
      | some existing =>
        exact ⟨[⟨.assetRecord existing, .asset a, some existing.id, some a.assetId, none⟩,
          ⟨.assetRecord existing, .asset a, some existing.id, some a.assetId, none⟩],
          by simp [pushOp, processItem]⟩
      | none =>
        cases hU : env.uploadBinaryFile a.filename (a.mimeType.getD "") a.binaryData with
        | error e => exact ⟨[], by simp [hU, pushOp]⟩
        | ok uploaded =>
          cases hA : env.addAsset uploaded.id a.assetId with
          | error e =>
            exact ⟨[⟨.binary uploaded, .asset a, none, none, none⟩],
              by simp [hU, hA, pushOp, processItem]⟩
          | ok created =>
            exact ⟨[⟨.binary uploaded, .asset a, none, none, none⟩,
              ⟨.assetRecord created, .asset a, some created.id, some a.assetId, none⟩],
              by simp [hU, hA, pushOp, processItem]⟩

theorem importAssetsAsync_ledger_extends (env : Env) :
    ∀ (assets : List IImportAsset) (st : St),
      ∃ d, (importAssetsAsync env assets st).1.ledger = st.ledger ++ d
  | [], st => ⟨[], by simp [importAssetsAsync]⟩
  | a :: rest, st => by
    unfold importAssetsAsync
    obtain ⟨d1, h1⟩ := importOneAsset_ledger_extends env st a
    cases hcall : importOneAsset env st a with
    | mk st1 r =>
      rw [hcall] at h1
      cases r with
      | error e => exact ⟨d1, h1⟩
      | ok u =>
        obtain ⟨d2, h2⟩ := importAssetsAsync_ledger_extends env rest st1
        exact ⟨d1 ++ d2, by rw [h2, h1, List.append_assoc]⟩

/-- C9 (amended): the ledger backing the translation table may hold several
entries for the same `originalId` (an existing asset registers an identical
fetch + skipUpdate pair; see the counterexample), but resolution is
well-defined by first registration: a lookup returns the `importId` of the
first entry registered for the id (or codename), regardless of later
registrations; lookup by id depends only on the `(originalId, importId)`
projection of the entries and lookup by codename only on the
`(originalCodename, importId)` projection (independent indices over the
same backing list); and the asset stage only ever appends to the ledger —
no entry is overwritten once registered. -/
theorem C9_translation_table (env : Env) :
    (∀ (pre : List IImportItemResult) (e : IImportItemResult)
        (post : List IImportItemResult) (id : String),
      e.originalId = some id → (∀ e1 ∈ pre, e1.originalId ≠ some id) →
      tryFindNewId (pre ++ e :: post) (.str id) = e.importId) ∧
    (∀ (pre : List IImportItemResult) (e : IImportItemResult)
        (post : List IImportItemResult) (codename : String),
      e.originalCodename = some codename →
      (∀ e1 ∈ pre, e1.originalCodename ≠ some codename) →
      tryFindNewIdForCodename (pre ++ e :: post) codename = e.importId) ∧
    (∀ items1 items2 : List IImportItemResult,
      items1.map (fun e => (e.originalId, e.importId)) =
        items2.map (fun e => (e.originalId, e.importId)) →
      ∀ id : JSVal, tryFindNewId items1 id = tryFindNewId items2 id) ∧
    (∀ items1 items2 : List IImportItemResult,
      items1.map (fun e => (e.originalCodename, e.importId)) =
        items2.map (fun e => (e.originalCodename, e.importId)) →
      ∀ codename : String,
        tryFindNewIdForCodename items1 codename = tryFindNewIdForCodename items2 codename) ∧
    (∀ (assets : List IImportAsset) (st : St),
      ∃ d, (importAssetsAsync env assets st).1.ledger = st.ledger ++ d) :=
  ⟨tryFindNewId_first, tryFindNewIdForCodename_first, tryFindNewId_proj,
   tryFindNewIdForCodename_proj, importAssetsAsync_ledger_extends env⟩

/-- Witness for C9 (amended): with two registrations of the id `a`, lookup
returns the first one's import id. -/
theorem C9_translation_table_witness :
    tryFindNewId
      [⟨.variantList, .variantList, some "FIRST", some "a", none⟩,
       ⟨.variantList, .variantList, some "SECOND", some "a", none⟩] (.str "a") =
      some "FIRST" ∧
    tryFindNewIdForCodename
      [⟨.variantList, .variantList, some "F1", none, some "cn"⟩,
       ⟨.variantList, .variantList, some "F2", none, some "cn"⟩] "cn" = some "F1" :=
  ⟨(C9_translation_table baseEnv).1 []
      ⟨.variantList, .variantList, some "FIRST", some "a", none⟩
      [⟨.variantList, .variantList, some "SECOND", some "a", none⟩] "a" rfl (by simp),
   (C9_translation_table baseEnv).2.1 []
      ⟨.variantList, .variantList, some "F1", none, some "cn"⟩
      [⟨.variantList, .variantList, some "F2", none, some "cn"⟩] "cn" rfl (by simp)⟩

/-- Counterexample to C9 as stated: one run of the asset stage over a
single already-existing asset registers two ledger entries carrying the
same `originalId` (the fetch + skipUpdate pair), so the backing store does
not hold at most one entry per distinct `originalId`. -/
theorem C9_duplicate_originalId_cex :
    ((importAssetsAsync envAssetExists [sampleAsset] ⟨[], []⟩).1.ledger.filter
      fun e => e.originalId == some "a-ext").length = 2 := by
  decide

/-! ## Claim C7: item-level upsert decision -/

/-- C7 (amended): for a source item found to already exist in the target,
an item-level upsert is issued if and only if the source name differs from
the existing item's name.  The collection comparison of
`shouldUpdateContentItem` compares the source collection codename with the
codename of the target collection found by that very codename, which is
always equal, so a collection difference never triggers an upsert; when the
names are equal the item is recorded as skipped with no item-level
mutation (the target collection must exist, else the check throws). -/
theorem C7_upsert_iff_name_differs (env : Env) (collections : List Collection) (st : St)
    (prepared : List ContentItem) (item : IParsedContentItem) (existing : ContentItem)
    (collection : Collection) (up : ContentItem)
    (hview : env.viewContentItem item.codename = .ok existing)
    (hcol : collections.find? (fun m => m.codename == item.collection) = some collection)
    (hup : env.upsertContentItem item.codename item.name item.collection = .ok up) :
    shouldUpdateContentItem item existing collections = .ok (item.name != existing.name) ∧
    (item.name ≠ existing.name →
      passAItemBody env collections st prepared item =
        (⟨st.ledger ++
            [⟨.contentItem existing, .contentItem existing, some existing.id, none,
              some existing.codename⟩,
             ⟨.parsedItem item, .parsedItem item, some up.id, none, some item.codename⟩],
          st.trace ++ [.viewContentItem item.codename, .processed .fetch .contentItem,
            .upsertContentItem item.codename, .processed .upsert .contentItem]⟩,
         prepared ++ [existing], .ok ())) ∧
    (item.name = existing.name →
      passAItemBody env collections st prepared item =
        (⟨st.ledger ++
            [⟨.contentItem existing, .contentItem existing, some existing.id, none,
              some existing.codename⟩,
             ⟨.parsedItem item, .parsedItem item, some existing.id, none, some item.codename⟩],
          st.trace ++ [.viewContentItem item.codename, .processed .fetch .contentItem,
            .processed .skipUpdate .contentItem]⟩,
         prepared ++ [existing], .ok ())) := by
  have hcodename : collection.codename = item.collection := by
    have := List.find?_some hcol
    simpa using this
  have hshould : shouldUpdateContentItem item existing collections =
      .ok (item.name != existing.name) := by
    unfold shouldUpdateContentItem
    rw [hcol]
    simp [hcodename]
  refine ⟨hshould, fun hne => ?_, fun heq => ?_⟩
  · have hbne : (item.name != existing.name) = true := by simpa using hne
    unfold passAItemBody prepareContentItemForImportAsync
    simp [hview, hshould, hbne, hup, pushOp, processItem]
  · have hbne : (item.name != existing.name) = false := by simpa using heq
    unfold passAItemBody prepareContentItemForImportAsync
    simp [hview, hshould, hbne, pushOp, processItem]

/-- Witness for C7 (amended): a name change alone triggers the upsert; an
identical name with a changed collection does not (see also the
counterexample). -/
theorem C7_upsert_iff_name_differs_witness :
    passAItemBody envItemFound sampleCollections ⟨[], []⟩ []
        ⟨"it1", "New name", "type1", "main", "en", some "published", []⟩ =
      (⟨[⟨.contentItem ⟨"ci1", "Item 1", "it1", "colid"⟩,
          .contentItem ⟨"ci1", "Item 1", "it1", "colid"⟩, some "ci1", none, some "it1"⟩,
         ⟨.parsedItem ⟨"it1", "New name", "type1", "main", "en", some "published", []⟩,
          .parsedItem ⟨"it1", "New name", "type1", "main", "en", some "published", []⟩,
          some "ci1", none, some "it1"⟩],
        [.viewContentItem "it1", .processed .fetch .contentItem,
         .upsertContentItem "it1", .processed .upsert .contentItem]⟩,
       [⟨"ci1", "Item 1", "it1", "colid"⟩], .ok ()) :=
  ((C7_upsert_iff_name_differs envItemFound sampleCollections ⟨[], []⟩ []
      ⟨"it1", "New name", "type1", "main", "en", some "published", []⟩
      ⟨"ci1", "Item 1", "it1", "colid"⟩ ⟨"colid", "main"⟩
      ⟨"ci1", "New name", "it1", "colid"⟩ rfl (by decide) rfl).2.1 (by decide))

/-- Counterexample to C7 as stated: the existing item lives in the target
collection `main` (resolved through its collection id), the source records
collection `other`, the names are equal — the claim requires an upsert,
yet `shouldUpdateContentItem` answers `false` and the pass records a
skipUpdate with no `upsertContentItem` call: the existing item's collection
is never consulted. -/
theorem C7_collection_difference_ignored_cex :
    (sampleCollections.find? fun c =>
        c.id == (⟨"ci1", "Item 1", "it1", "colid"⟩ : ContentItem).collectionId).map
        (fun c => c.codename) = some "main" ∧
    itemOtherCol.collection = "other" ∧
    itemOtherCol.name = (⟨"ci1", "Item 1", "it1", "colid"⟩ : ContentItem).name ∧
    shouldUpdateContentItem itemOtherCol ⟨"ci1", "Item 1", "it1", "colid"⟩
      sampleCollections = .ok false ∧
    (passAItemBody envItemFound sampleCollections ⟨[], []⟩ [] itemOtherCol).1.trace =
      [.viewContentItem "it1", .processed .fetch .contentItem,
       .processed .skipUpdate .contentItem] := by
  decide

/-! ## Claim C8: the skip-vs-abort failure policy -/

theorem passA_skip_ok (env : Env) (cols : List Collection) :
    ∀ (items : List IParsedContentItem) (st : St) (prepared : List ContentItem),
      (passA env true cols items st prepared).2.2 = .ok ()
  | [], _, _ => rfl
  | item :: rest, st, prepared => by
    unfold passA
    by_cases hws : wsTruthy item.workflow_step = true
    · rw [if_pos hws]
      rcases hB : passAItemBody env cols st prepared item with ⟨st1, prep1, r1⟩
      cases r1 with
      | ok u => exact passA_skip_ok env cols rest st1 prep1
      | error e => simpa using passA_skip_ok env cols rest st1 prep1
    · rw [if_neg hws]
      exact passA_skip_ok env cols rest st prepared

theorem passB_skip_ok (env : Env) (workflows : List Workflow) (prepared : List ContentItem) :
    ∀ (items : List IParsedContentItem) (st : St),
      (passB env true workflows prepared items st).2 = .ok ()
  | [], _ => rfl
  | item :: rest, st => by
    unfold passB
    by_cases hws : wsTruthy item.workflow_step = true
    · rw [if_pos hws]
      rcases hB : passBItemBody env workflows prepared st item with ⟨st1, r1⟩
      cases r1 with
      | ok u => exact passB_skip_ok env workflows prepared rest st1
      | error e => simpa using passB_skip_ok env workflows prepared rest st1
    · rw [if_neg hws]
      exact passB_skip_ok env workflows prepared rest st

/-- C8 (amended): for an item whose body raises an exception during pass A
or pass B — when the skip-failed-items flag is enabled, the exception is
swallowed (and logged) and the pass continues with the remaining items from
the failing body's resulting state, so ledger entries recorded for the item
before the failure remain (the item is not removed from the ledger; see
the counterexample), and the whole stage still succeeds whenever listing
workflows and collections succeeds; when the flag is disabled the exception
is re-thrown, aborting the pass with no further items processed. -/
theorem C8_skip_failed_items (env : Env) :
    (∀ (cols : List Collection) (st st1 : St) (prepared prep1 : List ContentItem)
        (item : IParsedContentItem) (rest : List IParsedContentItem) (e : KErr),
      wsTruthy item.workflow_step = true →
      passAItemBody env cols st prepared item = (st1, prep1, .error e) →
      passA env true cols (item :: rest) st prepared = passA env true cols rest st1 prep1 ∧
      passA env false cols (item :: rest) st prepared = (st1, prep1, .error e)) ∧
    (∀ (workflows : List Workflow) (prepared : List ContentItem) (st st1 : St)
        (item : IParsedContentItem) (rest : List IParsedContentItem) (e : KErr),
      wsTruthy item.workflow_step = true →
      passBItemBody env workflows prepared st item = (st1, .error e) →
      passB env true workflows prepared (item :: rest) st =
        passB env true workflows prepared rest st1 ∧
      passB env false workflows prepared (item :: rest) st = (st1, .error e)) ∧
    (∀ (items : List IParsedContentItem) (st : St) (ws : List Workflow)
        (cols : List Collection),
      env.listWorkflows = .ok ws → env.listCollections = .ok cols →
      (importContentItemsAsync env true items st).2 = .ok ()) := by
  refine ⟨fun cols st st1 prepared prep1 item rest e hws hb => ?_,
    fun workflows prepared st st1 item rest e hws hb => ?_,
    fun items st ws cols hW hC => ?_⟩
  · constructor
    · conv_lhs => rw [passA]
      rw [if_pos hws]
      simp [hb]
    · unfold passA
      rw [if_pos hws]
      simp [hb]
  · constructor
    · conv_lhs => rw [passB]
      rw [if_pos hws]
      simp [hb]
    · unfold passB
      rw [if_pos hws]
      simp [hb]
  · unfold importContentItemsAsync
    simp only [hW, hC]
    rcases hA : passA env true cols items
      (pushOp (pushOp st .listWorkflows) .listCollections) [] with ⟨st1, prep1, r1⟩
    have hok : r1 = .ok () := by
      have h := passA_skip_ok env cols items
        (pushOp (pushOp st .listWorkflows) .listCollections) []
      rw [hA] at h
      exact h
    subst hok
    simp only [hA]
    exact passB_skip_ok env ws prep1 items st1

/-- Witness for C8 (amended): in the fixture with no target collections the
pass-A body fails with `Invalid collection`; with the flag set the loop
continues (and the whole stage succeeds), without it the loop aborts with
that error. -/
theorem C8_skip_failed_items_witness :
    (passA envNoCollections true [] [itemPub] ⟨[], []⟩ [] =
      passA envNoCollections true [] []
        ⟨[⟨.contentItem ⟨"ci1", "Item 1", "it1", "colid"⟩,
           .contentItem ⟨"ci1", "Item 1", "it1", "colid"⟩, some "ci1", none, some "it1"⟩],
         [.viewContentItem "it1", .processed .fetch .contentItem]⟩
        [⟨"ci1", "Item 1", "it1", "colid"⟩] ∧
     passA envNoCollections false [] [itemPub] ⟨[], []⟩ [] =
      (⟨[⟨.contentItem ⟨"ci1", "Item 1", "it1", "colid"⟩,
          .contentItem ⟨"ci1", "Item 1", "it1", "colid"⟩, some "ci1", none, some "it1"⟩],
        [.viewContentItem "it1", .processed .fetch .contentItem]⟩,
       [⟨"ci1", "Item 1", "it1", "colid"⟩], .error (.jsError "Invalid collection main"))) ∧
    (importContentItemsAsync envNoCollections true [itemPub] ⟨[], []⟩).2 = .ok () :=
  ⟨(C8_skip_failed_items envNoCollections).1 [] ⟨[], []⟩ _ [] _ itemPub [] _ (by decide)
      (by decide),
   (C8_skip_failed_items envNoCollections).2.2 [itemPub] ⟨[], []⟩ [sampleWorkflow] []
      rfl rfl⟩

/-- Counterexample to C8 as stated: with the skip-failed-items flag set,
the item `it1` fails pass A (`Invalid collection`), yet it is not omitted
from the ledger — its pass-A fetch entry remains, and pass B (whose
`preparedItems` was already populated before the failure) even upserts and
publishes its language variant, adding further entries for the item. -/
theorem C8_failed_item_still_in_ledger_cex :
    (importContentItemsAsync envNoCollections true [itemPub] ⟨[], []⟩).2 = .ok () ∧
    shouldUpdateContentItem itemPub ⟨"ci1", "Item 1", "it1", "colid"⟩ [] =
      .error (.jsError "Invalid collection main") ∧
    ((importContentItemsAsync envNoCollections true [itemPub] ⟨[], []⟩).1.ledger.filter
      fun e => e.originalCodename == some "it1").length = 3 := by
  decide

/-! ## Claim C1: archived variant with published target -/

/-- C1: for a language variant whose current target state is archived (its
current step id is some workflow's archived step, and no workflow's
published step) and whose desired source workflow step classifies as
published, the pass-B body issues, in order: the variant fetch, the
un-archive change-step to the first ordinary step of the workflow owning
the variant's current step, the element upsert, and only then the publish
call — so the workflow-transition operations issued are exactly
[change-step(first step), publish], and publish is never invoked before the
un-archive change-step. -/
theorem C1_archived_to_published (env : Env) (workflows : List Workflow)
    (prepared : List ContentItem) (st : St) (item : IParsedContentItem)
    (up : ContentItem) (variant : LanguageVariant) (wf : Workflow)
    (first : WorkflowStep) (more : List WorkflowStep)
    (contracts : List ElementContract) (lv : LanguageVariant) (ws : String)
    (hfind : prepared.find? (fun m => m.codename == item.codename) = some up)
    (hview : env.viewLanguageVariant item.codename item.language = .ok variant)
    (hnotpub : isLanguageVariantPublished variant workflows = false)
    (harch : isLanguageVariantArchived variant workflows = true)
    (hstepid : variant.workflowStepId ≠ "")
    (hwfById : getWorkflowForGivenStepById variant.workflowStepId workflows = .ok wf)
    (hsteps : wf.steps = first :: more)
    (hchg : env.changeWorkflowStepOfLanguageVariant item.codename item.language
      first.codename = .ok ())
    (helems : mapElements env item.elements = .ok contracts)
    (hups : env.upsertLanguageVariant up.codename item.language contracts = .ok lv)
    (hws : item.workflow_step = some ws) (hwsne : ws ≠ "")
    (hdesired : doesWorkflowStepCodenameRepresentPublishedStep ws workflows = true)
    (hpub : env.publishLanguageVariant item.codename item.language = .ok ()) :
    passBItemBody env workflows prepared st item =
      (⟨st.ledger ++
          [⟨.variant variant, .parsedItem item, none, none, none⟩,
           ⟨.variant variant, .parsedItem item, none, none, none⟩,
           ⟨.variantList, .parsedItem item, some up.id, none, some item.codename⟩,
           ⟨.variantList, .parsedItem item, some up.id, none, some item.codename⟩],
        st.trace ++
          [.viewLanguageVariant item.codename item.language,
           .processed .fetch .languageVariant,
           .changeWorkflowStepOfLanguageVariant item.codename item.language first.codename,
           .processed .unArchive .languageVariant,
           .upsertLanguageVariant up.codename item.language,
           .processed .upsert .languageVariant,
           .publishLanguageVariant item.codename item.language,
           .processed .publish .languageVariant]⟩, .ok ()) ∧
    ([Op.viewLanguageVariant item.codename item.language,
      .processed .fetch .languageVariant,
      .changeWorkflowStepOfLanguageVariant item.codename item.language first.codename,
      .processed .unArchive .languageVariant,
      .upsertLanguageVariant up.codename item.language,
      .processed .upsert .languageVariant,
      .publishLanguageVariant item.codename item.language,
      .processed .publish .languageVariant].filter isWorkflowTransitionOp =
     [.changeWorkflowStepOfLanguageVariant item.codename item.language first.codename,
      .publishLanguageVariant item.codename item.language]) := by
  constructor
  · have hbne : (variant.workflowStepId != "") = true := by simpa using hstepid
    have hwst : wsTruthy (some ws) = true := by simp [wsTruthy, hwsne]
    unfold passBItemBody prepareLanguageVariantForImportAsync
    simp [hfind, hview, hnotpub, harch, hbne, hwfById, hsteps, hchg, helems, hups,
      hwst, hws, hdesired, hpub, pushOp, processItem]
  · simp [isWorkflowTransitionOp, List.filter]

/-- Witness for C1: in a fixture environment whose variant sits in the
archived step, an item whose desired step is `published` produces exactly
the un-archive change-step followed by the publish. -/
theorem C1_archived_to_published_witness :
    passBItemBody { baseEnv with viewLanguageVariant := fun _ _ => .ok ⟨"a1"⟩ }
      [sampleWorkflow] [⟨"ci1", "Item 1", "it1", "colid"⟩] ⟨[], []⟩ itemPub =
      (⟨[⟨.variant ⟨"a1"⟩, .parsedItem itemPub, none, none, none⟩,
         ⟨.variant ⟨"a1"⟩, .parsedItem itemPub, none, none, none⟩,
         ⟨.variantList, .parsedItem itemPub, some "ci1", none, some "it1"⟩,
         ⟨.variantList, .parsedItem itemPub, some "ci1", none, some "it1"⟩],
        [.viewLanguageVariant "it1" "en",
         .processed .fetch .languageVariant,
         .changeWorkflowStepOfLanguageVariant "it1" "en" "draft",
         .processed .unArchive .languageVariant,
         .upsertLanguageVariant "it1" "en",
         .processed .upsert .languageVariant,
         .publishLanguageVariant "it1" "en",
         .processed .publish .languageVariant]⟩, .ok ()) ∧
    ([Op.viewLanguageVariant "it1" "en",
      .processed .fetch .languageVariant,
      .changeWorkflowStepOfLanguageVariant "it1" "en" "draft",
      .processed .unArchive .languageVariant,
      .upsertLanguageVariant "it1" "en",
      .processed .upsert .languageVariant,
      .publishLanguageVariant "it1" "en",
      .processed .publish .languageVariant].filter isWorkflowTransitionOp =
     [.changeWorkflowStepOfLanguageVariant "it1" "en" "draft",
      .publishLanguageVariant "it1" "en"]) :=
  C1_archived_to_published { baseEnv with viewLanguageVariant := fun _ _ => .ok ⟨"a1"⟩ }
    [sampleWorkflow] [⟨"ci1", "Item 1", "it1", "colid"⟩] ⟨[], []⟩ itemPub
    ⟨"ci1", "Item 1", "it1", "colid"⟩ ⟨"a1"⟩ sampleWorkflow ⟨"s1", "draft"⟩ []
    [] ⟨"s1"⟩ "published" (by decide) rfl (by decide) (by decide) (by decide) (by decide)
    rfl rfl rfl rfl rfl (by decide) (by decide) rfl

/-! ## Claim C4: aborting a run -/

/-- C4 (amended): when any stage of a run throws an unrecovered error, the
`catch` block of `importAsync` calls `handleImportError`, whose
`handleError` re-throws the error — classified into a record with the
`Failed to import data with error: ` message, the error code, the request
id and the joined validation errors when it is a Kontent error, and as-is
otherwise.  The run therefore rejects with the classified error, and the
accumulated ledger (`importedItems`) is returned to the caller only when
both stages succeed: the partial ledger of a failed run is not returned. -/
theorem C4_abort_with_classified_error (env : Env) (config : IImportConfig)
    (source : IImportSource) :
    (∀ (st1 : St) (e : KErr),
      (if (removeSkippedAssets config source.assets).isEmpty then (⟨[], []⟩, Except.ok ())
       else importAssetsAsync env (removeSkippedAssets config source.assets) ⟨[], []⟩) =
        (st1, Except.error e) →
      importAsync env config source = (st1.trace, .error (handleErrorFn e))) ∧
    (∀ (st1 st2 : St) (e : KErr),
      (if (removeSkippedAssets config source.assets).isEmpty then (⟨[], []⟩, Except.ok ())
       else importAssetsAsync env (removeSkippedAssets config source.assets) ⟨[], []⟩) =
        (st1, Except.ok ()) →
      (if (removeSkippedContentItems config source.items).isEmpty then (st1, Except.ok ())
       else importContentItemsAsync env config.skipFailedItems
         (removeSkippedContentItems config source.items) st1) = (st2, Except.error e) →
      importAsync env config source = (st2.trace, .error (handleErrorFn e))) ∧
    (∀ st1 st2 : St,
      (if (removeSkippedAssets config source.assets).isEmpty then (⟨[], []⟩, Except.ok ())
       else importAssetsAsync env (removeSkippedAssets config source.assets) ⟨[], []⟩) =
        (st1, Except.ok ()) →
      (if (removeSkippedContentItems config source.items).isEmpty then (st1, Except.ok ())
       else importContentItemsAsync env config.skipFailedItems
         (removeSkippedContentItems config source.items) st1) = (st2, Except.ok ()) →
      importAsync env config source = (st2.trace, .ok st2.ledger)) ∧
    (∀ (m c r : String) (vs : List String) (s : Option Nat),
      handleErrorFn (.kontent m c r vs s) =
        .classified ("Failed to import data with error: " ++ m) c r (joinComma vs)) := by
  refine ⟨fun st1 e h1 => ?_, fun st1 st2 e h1 h2 => ?_, fun st1 st2 h1 h2 => ?_,
    fun m c r vs s => rfl⟩
  · unfold importAsync
    simp only [h1]
  · unfold importAsync
    simp only [h1, h2]
  · unfold importAsync
    simp only [h1, h2]

/-- Witness for C4 (amended): a failing asset check aborts the run with the
raw error; the ledger is not part of the result. -/
theorem C4_abort_with_classified_error_witness :
    importAsync envAssetFail cfgNoSkip sampleSource =
      ([.viewAsset "a-ext"], .error (.raw (.jsError "network failure"))) :=
  (C4_abort_with_classified_error envAssetFail cfgNoSkip sampleSource).1
    ⟨[], [.viewAsset "a-ext"]⟩ (.jsError "network failure") (by decide)

/-- Counterexample to C4 as stated: the asset stage succeeded and produced
ledger entries (the fetch + skipUpdate processing events are in the
trace), then listing workflows failed; the run rejects with the classified
error and the partial ledger is NOT returned to the caller —
`handleImportError` re-throws, so `return importedItems` is never
reached. -/
theorem C4_partial_ledger_lost_cex :
    importAsync envWfFail cfgNoSkip sampleSource =
      ([.viewAsset "a-ext", .viewAsset "a-ext", .processed .fetch .asset,
        .processed .skipUpdate .asset, .listWorkflows],
       .error (.classified "Failed to import data with error: boom" "EC" "RQ" "v1, v2")) := by
  decide

/-! ## Claim C10: frame lemmas -/

theorem frameObj_refl (items : List IImportItemResult) (pend : String → Bool) :
    ∀ o : JSObj, FrameObj items pend o o
  | .nil => .nil pend
  | .cons k v rest => .consSame pend k v rest rest (frameObj_refl items pend rest)

theorem frameObj_mono {items : List IImportItemResult} :
    ∀ (whole o : JSObj) (p1 p2 : String → Bool),
      (∀ k, p1 k = false → p2 k = false) →
      FrameObj items p1 whole o → FrameObj items p2 whole o
  | .nil, o, p1, p2, hsub, h => by
    cases h with
    | nil => exact .nil p2
    | nilId _ s => exact .nilId p2 s
  | .cons k1 v1 rest, o, p1, p2, hsub, h => by
    cases h with
    | consSame _ _ _ _ rest' hrest =>
      exact .consSame p2 k1 v1 rest rest' (frameObj_mono rest rest' p1 p2 hsub hrest)
    | consDelim _ _ s _ rest' hp hdel hrest =>
      exact .consDelim p2 k1 s rest rest' (hsub k1 hp) hdel
        (frameObj_mono rest rest' p1 p2 hsub hrest)
    | consIdStr _ s s' _ rest' hrest =>
      exact .consIdStr p2 s s' rest rest' (frameObj_mono rest rest' p1 p2 hsub hrest)
    | consIdUndef _ s' _ rest' hrest =>
      exact .consIdUndef p2 s' rest rest' (frameObj_mono rest rest' p1 p2 hsub hrest)
    | consChild _ _ _ v' _ rest' hp hobj hv hrest =>
      exact .consChild p2 k1 v1 v' rest rest' (hsub k1 hp) hobj hv
        (frameObj_mono rest rest' p1 p2 hsub hrest)

theorem frameV_objLike {items : List IImportItemResult} {v v' : JSVal}
    (h : FrameVal items v v') (ho : isObjectLike v = true) : isObjectLike v' = true := by
  cases h <;> simp [isObjectLike] at ho ⊢

theorem tryFindNewId_shape {items : List IImportItemResult} {w : JSVal} {s : String}
    (h : tryFindNewId items w = some s) : w = .undef ∨ ∃ t, w = .str t := by
  unfold tryFindNewId at h
  cases hf : items.find? (fun m => strictEqOptStr m.originalId w) with
  | none => rw [hf] at h; simp at h
  | some m =>
    have hp := List.find?_some hf
    cases w with
    | str t => exact Or.inr ⟨t, rfl⟩
    | undef => exact Or.inl rfl
    | num n => cases horig : m.originalId <;> rw [horig] at hp <;> simp [strictEqOptStr] at hp
    | boolean b => cases horig : m.originalId <;> rw [horig] at hp <;> simp [strictEqOptStr] at hp
    | null => cases horig : m.originalId <;> rw [horig] at hp <;> simp [strictEqOptStr] at hp
    | arr xs => cases horig : m.originalId <;> rw [horig] at hp <;> simp [strictEqOptStr] at hp
    | obj fs => cases horig : m.originalId <;> rw [horig] at hp <;> simp [strictEqOptStr] at hp

theorem frameObj_pending_get {items : List IImportItemResult} :
    ∀ (whole o : JSObj) (pend : String → Bool) (k : String),
      FrameObj items pend whole o → pend k = true → k ≠ "id" →
      getBinding o k = getBinding whole k
  | .nil, o, pend, k, h, hp, hk => by
    cases h with
    | nil => rfl
    | nilId _ s =>
      have he : ¬(("id" : String) = k) := fun hc => hk hc.symm
      unfold getBinding
      rw [if_neg he]
      rfl
  | .cons k1 v1 rest, o, pend, k, h, hp, hk => by
    cases h with
    | consSame _ _ _ _ rest' hrest =>
      unfold getBinding
      by_cases he : k1 = k
      · rw [if_pos he, if_pos he]
      · rw [if_neg he, if_neg he]
        exact frameObj_pending_get rest rest' pend k hrest hp hk
    | consDelim _ _ s _ rest' hpf hdel hrest =>
      have he : ¬(k1 = k) := fun hc => by rw [hc, hp] at hpf; exact Bool.noConfusion hpf
      unfold getBinding
      rw [if_neg he, if_neg he]
      exact frameObj_pending_get rest rest' pend k hrest hp hk
    | consIdStr _ s s' _ rest' hrest =>
      have he : ¬(("id" : String) = k) := fun hc => hk hc.symm
      unfold getBinding
      rw [if_neg he, if_neg he]
      exact frameObj_pending_get rest rest' pend k hrest hp hk
    | consIdUndef _ s' _ rest' hrest =>
      have he : ¬(("id" : String) = k) := fun hc => hk hc.symm
      unfold getBinding
      rw [if_neg he, if_neg he]
      exact frameObj_pending_get rest rest' pend k hrest hp hk
    | consChild _ _ _ v' _ rest' hpf hobj hv hrest =>
      have he : ¬(k1 = k) := fun hc => by rw [hc, hp] at hpf; exact Bool.noConfusion hpf
      unfold getBinding
      rw [if_neg he, if_neg he]
      exact frameObj_pending_get rest rest' pend k hrest hp hk

theorem frameObj_id_get {items : List IImportItemResult} :
    ∀ (whole o : JSObj) (pend : String → Bool) (v : JSVal),
      FrameObj items pend whole o → pend "id" = true → getBinding whole "id" = some v →
      getBinding o "id" = some v ∨
        ((v = .undef ∨ ∃ t, v = .str t) ∧ ∃ s2, getBinding o "id" = some (.str s2))
  | .nil, o, pend, v, h, hp, hg => by simp [getBinding] at hg
  | .cons k1 v1 rest, o, pend, v, h, hp, hg => by
    cases h with
    | consSame _ _ _ _ rest' hrest =>
      unfold getBinding at hg ⊢
      by_cases he : k1 = "id"
      · rw [if_pos he] at hg ⊢
        exact Or.inl hg
      · rw [if_neg he] at hg ⊢
        exact frameObj_id_get rest rest' pend v hrest hp hg
    | consDelim _ _ s _ rest' hpf hdel hrest =>
      by_cases he : k1 = "id"
      · exfalso; rw [he, hp] at hpf; exact Bool.noConfusion hpf
      · unfold getBinding at hg ⊢
        rw [if_neg he] at hg ⊢
        exact frameObj_id_get rest rest' pend v hrest hp hg
    | consIdStr _ s s' _ rest' hrest =>
      unfold getBinding at hg ⊢
      rw [if_pos rfl] at hg ⊢
      exact Or.inr ⟨Or.inr ⟨s, (Option.some.inj hg).symm⟩, ⟨s', rfl⟩⟩
    | consIdUndef _ s' _ rest' hrest =>
      unfold getBinding at hg ⊢
      rw [if_pos rfl] at hg ⊢
      exact Or.inr ⟨Or.inl (Option.some.inj hg).symm, ⟨s', rfl⟩⟩
    | consChild _ _ _ v' _ rest' hpf hobj hv hrest =>
      by_cases he : k1 = "id"
      · exfalso; rw [he, hp] at hpf; exact Bool.noConfusion hpf
      · unfold getBinding at hg ⊢
        rw [if_neg he] at hg ⊢
        exact frameObj_id_get rest rest' pend v hrest hp hg

theorem frameObj_id_none {items : List IImportItemResult} :
    ∀ (whole o : JSObj) (pend : String → Bool),
      FrameObj items pend whole o → getBinding o "id" = none → getBinding whole "id" = none
  | .nil, o, pend, h, hg => by
    cases h with
    | nil => rfl
    | nilId _ s => unfold getBinding at hg; rw [if_pos rfl] at hg; exact Option.noConfusion hg
  | .cons k1 v1 rest, o, pend, h, hg => by
    cases h with
    | consSame _ _ _ _ rest' hrest =>
      unfold getBinding at hg ⊢
      by_cases he : k1 = "id"
      · rw [if_pos he] at hg; exact Option.noConfusion hg
      · rw [if_neg he] at hg ⊢
        exact frameObj_id_none rest rest' pend hrest hg
    | consDelim _ _ s _ rest' hpf hdel hrest =>
      unfold getBinding at hg ⊢
      by_cases he : k1 = "id"
      · rw [if_pos he] at hg; exact Option.noConfusion hg
      · rw [if_neg he] at hg ⊢
        exact frameObj_id_none rest rest' pend hrest hg
    | consIdStr _ s s' _ rest' hrest =>
      unfold getBinding at hg
      rw [if_pos rfl] at hg; exact Option.noConfusion hg
    | consIdUndef _ s' _ rest' hrest =>
      unfold getBinding at hg
      rw [if_pos rfl] at hg; exact Option.noConfusion hg
    | consChild _ _ _ v' _ rest' hpf hobj hv hrest =>
      unfold getBinding at hg ⊢
      by_cases he : k1 = "id"
      · rw [if_pos he] at hg; exact Option.noConfusion hg
      · rw [if_neg he] at hg ⊢
        exact frameObj_id_none rest rest' pend hrest hg

theorem frameObj_id_shape {items : List IImportItemResult} :
    ∀ (whole o : JSObj) (pend : String → Bool) (w : JSVal),
      FrameObj items pend whole o → getBinding o "id" = some w →
      (w = .undef ∨ ∃ t, w = .str t) →
      getBinding whole "id" = none ∨ getBinding whole "id" = some .undef ∨
        ∃ u, getBinding whole "id" = some (.str u)
  | .nil, o, pend, w, h, hg, hw => by
    cases h with
    | nil => exact Or.inl rfl
    | nilId _ s => exact Or.inl rfl
  | .cons k1 v1 rest, o, pend, w, h, hg, hw => by
    cases h with
    | consSame _ _ _ _ rest' hrest =>
      unfold getBinding at hg ⊢
      by_cases he : k1 = "id"
      · rw [if_pos he] at hg ⊢
        have hv : v1 = w := Option.some.inj hg
        cases hw with
        | inl h1 => exact Or.inr (Or.inl (by rw [hv, h1]))
        | inr h1 =>
          obtain ⟨t, ht⟩ := h1
          exact Or.inr (Or.inr ⟨t, by rw [hv, ht]⟩)
      · rw [if_neg he] at hg ⊢
        exact frameObj_id_shape rest rest' pend w hrest hg hw
    | consDelim _ _ s _ rest' hpf hdel hrest =>
      unfold getBinding at hg ⊢
      by_cases he : k1 = "id"
      · exact Or.inr (Or.inr ⟨s, by rw [if_pos he]⟩)
      · rw [if_neg he] at hg ⊢
        exact frameObj_id_shape rest rest' pend w hrest hg hw
    | consIdStr _ s s' _ rest' hrest =>
      exact Or.inr (Or.inr ⟨s, by unfold getBinding; rw [if_pos rfl]⟩)
    | consIdUndef _ s' _ rest' hrest =>
      exact Or.inr (Or.inl (by unfold getBinding; rw [if_pos rfl]))
    | consChild _ _ _ v' _ rest' hpf hobj hv hrest =>
      unfold getBinding at hg ⊢
      by_cases he : k1 = "id"
      · rw [if_pos he] at hg
        have hv' : v' = w := Option.some.inj hg
        have hol : isObjectLike v' = true := frameV_objLike hv hobj
        exfalso
        rw [hv'] at hol
        cases hw with
        | inl h1 => rw [h1] at hol; simp [isObjectLike] at hol
        | inr h1 =>
          obtain ⟨t, ht⟩ := h1
          rw [ht] at hol; simp [isObjectLike] at hol
      · rw [if_neg he] at hg ⊢
        exact frameObj_id_shape rest rest' pend w hrest hg hw

theorem frameObj_set_delim {items : List IImportItemResult} :
    ∀ (whole o : JSObj) (pend : String → Bool) (k s : String),
      FrameObj items pend whole o → getBinding whole k = some (.str s) →
      isDelimited s = true → pend k = false →
      FrameObj items pend whole (jsSet o k (.str (replaceIdsInRichText items s)))
  | .nil, o, pend, k, s, h, hget, hdel, hpend => by simp [getBinding] at hget
  | .cons k1 v1 rest, o, pend, k, s, h, hget, hdel, hpend => by
    cases h with
    | consSame _ _ _ _ rest' hrest =>
      unfold getBinding at hget
      unfold jsSet
      by_cases he : k1 = k
      · rw [if_pos he] at hget
        rw [if_pos he, ← he]
        rw [← he] at hpend
        rw [Option.some.inj hget]
        exact .consDelim pend k1 s rest rest' hpend hdel hrest
      · rw [if_neg he] at hget
        rw [if_neg he]
        exact .consSame pend k1 v1 rest _
          (frameObj_set_delim rest rest' pend k s hrest hget hdel hpend)
    | consDelim _ _ s0 _ rest' hpf hdel0 hrest =>
      unfold getBinding at hget
      unfold jsSet
      by_cases he : k1 = k
      · rw [if_pos he] at hget
        rw [if_pos he, ← he]
        rw [← he] at hpend
        have hs : s0 = s := JSVal.str.inj (Option.some.inj hget)
        rw [← hs]
        rw [← hs] at hdel
        exact .consDelim pend k1 s0 rest rest' hpend hdel hrest
      · rw [if_neg he] at hget
        rw [if_neg he]
        exact .consDelim pend k1 s0 rest _ hpf hdel0
          (frameObj_set_delim rest rest' pend k s hrest hget hdel hpend)
    | consIdStr _ s0 sx _ rest' hrest =>
      unfold getBinding at hget
      unfold jsSet
      by_cases he : ("id" : String) = k
      · rw [if_pos he] at hget
        rw [if_pos he, ← he]
        exact .consIdStr pend s0 (replaceIdsInRichText items s) rest rest' hrest
      · rw [if_neg he] at hget
        rw [if_neg he]
        exact .consIdStr pend s0 sx rest _
          (frameObj_set_delim rest rest' pend k s hrest hget hdel hpend)
    | consIdUndef _ sx _ rest' hrest =>
      unfold getBinding at hget
      unfold jsSet
      by_cases he : ("id" : String) = k
      · rw [if_pos he] at hget
        exact absurd (Option.some.inj hget) (fun hcc => JSVal.noConfusion hcc)
      · rw [if_neg he] at hget
        rw [if_neg he]
        exact .consIdUndef pend sx rest _
          (frameObj_set_delim rest rest' pend k s hrest hget hdel hpend)
    | consChild _ _ _ vx _ rest' hpf hobjx hvx hrest =>
      unfold getBinding at hget
      unfold jsSet
      by_cases he : k1 = k
      · exfalso
        rw [if_pos he] at hget
        rw [Option.some.inj hget] at hobjx
        simp [isObjectLike] at hobjx
      · rw [if_neg he] at hget
        rw [if_neg he]
        exact .consChild pend k1 v1 vx rest _ hpf hobjx hvx
          (frameObj_set_delim rest rest' pend k s hrest hget hdel hpend)

theorem frameObj_set_id {items : List IImportItemResult} :
    ∀ (whole o : JSObj) (pend : String → Bool) (s' : String),
      FrameObj items pend whole o →
      (getBinding whole "id" = none ∨ getBinding whole "id" = some .undef ∨
        ∃ u, getBinding whole "id" = some (.str u)) →
      FrameObj items pend whole (jsSet o "id" (.str s'))
  | .nil, o, pend, s', h, hsh => by
    cases h with
    | nil => exact .nilId pend s'
    | nilId _ s0 =>
      unfold jsSet
      rw [if_pos rfl]
      exact .nilId pend s'
  | .cons k1 v1 rest, o, pend, s', h, hsh => by
    cases h with
    | consSame _ _ _ _ rest' hrest =>
      unfold jsSet
      unfold getBinding at hsh
      by_cases he : k1 = "id"
      · rw [if_pos he]
        rw [if_pos he] at hsh
        rcases hsh with h1 | h1 | ⟨u, h1⟩
        · exact Option.noConfusion h1
        · rw [he, Option.some.inj h1]
          exact .consIdUndef pend s' rest rest' hrest
        · rw [he, Option.some.inj h1]
          exact .consIdStr pend u s' rest rest' hrest
      · rw [if_neg he]
        rw [if_neg he] at hsh
        exact .consSame pend k1 v1 rest _ (frameObj_set_id rest rest' pend s' hrest hsh)
    | consDelim _ _ s0 _ rest' hpf hdel0 hrest =>
      unfold jsSet
      unfold getBinding at hsh
      by_cases he : k1 = "id"
      · rw [if_pos he, he]
        exact .consIdStr pend s0 s' rest rest' hrest
      · rw [if_neg he]
        rw [if_neg he] at hsh
        exact .consDelim pend k1 s0 rest _ hpf hdel0
          (frameObj_set_id rest rest' pend s' hrest hsh)
    | consIdStr _ s0 sx _ rest' hrest =>
      unfold jsSet
      rw [if_pos rfl]
      exact .consIdStr pend s0 s' rest rest' hrest
    | consIdUndef _ sx _ rest' hrest =>
      unfold jsSet
      rw [if_pos rfl]
      exact .consIdUndef pend s' rest rest' hrest
    | consChild _ _ _ vx _ rest' hpf hobjx hvx hrest =>
      unfold jsSet
      unfold getBinding at hsh
      by_cases he : k1 = "id"
      · exfalso
        rw [if_pos he] at hsh
        rcases hsh with h1 | h1 | ⟨u, h1⟩
        · exact Option.noConfusion h1
        · rw [Option.some.inj h1] at hobjx; simp [isObjectLike] at hobjx
        · rw [Option.some.inj h1] at hobjx; simp [isObjectLike] at hobjx
      · rw [if_neg he]
        rw [if_neg he] at hsh
        exact .consChild pend k1 v1 vx rest _ hpf hobjx hvx
          (frameObj_set_id rest rest' pend s' hrest hsh)

theorem frameObj_set_child {items : List IImportItemResult} :
    ∀ (whole o : JSObj) (pend : String → Bool) (k : String) (v v' : JSVal),
      FrameObj items pend whole o → getBinding whole k = some v →
      isObjectLike v = true → pend k = false → FrameVal items v v' →
      FrameObj items pend whole (jsSet o k v')
  | .nil, o, pend, k, v, v', h, hget, hobj, hpend, hv => by simp [getBinding] at hget
  | .cons k1 v1 rest, o, pend, k, v, v', h, hget, hobj, hpend, hv => by
    cases h with
    | consSame _ _ _ _ rest' hrest =>
      unfold getBinding at hget
      unfold jsSet
      by_cases he : k1 = k
      · rw [if_pos he] at hget
        rw [if_pos he, ← he]
        rw [← he] at hpend
        have hv1 : v1 = v := Option.some.inj hget
        rw [← hv1] at hobj hv
        exact .consChild pend k1 v1 v' rest rest' hpend hobj hv hrest
      · rw [if_neg he] at hget
        rw [if_neg he]
        exact .consSame pend k1 v1 rest _
          (frameObj_set_child rest rest' pend k v v' hrest hget hobj hpend hv)
    | consDelim _ _ s0 _ rest' hpf hdel0 hrest =>
      unfold getBinding at hget
      unfold jsSet
      by_cases he : k1 = k
      · exfalso
        rw [if_pos he] at hget
        rw [← Option.some.inj hget] at hobj
        simp [isObjectLike] at hobj
      · rw [if_neg he] at hget
        rw [if_neg he]
        exact .consDelim pend k1 s0 rest _ hpf hdel0
          (frameObj_set_child rest rest' pend k v v' hrest hget hobj hpend hv)
    | consIdStr _ s0 sx _ rest' hrest =>
      unfold getBinding at hget
      unfold jsSet
      by_cases he : ("id" : String) = k
      · exfalso
        rw [if_pos he] at hget
        rw [← Option.some.inj hget] at hobj
        simp [isObjectLike] at hobj
      · rw [if_neg he] at hget
        rw [if_neg he]
        exact .consIdStr pend s0 sx rest _
          (frameObj_set_child rest rest' pend k v v' hrest hget hobj hpend hv)
    | consIdUndef _ sx _ rest' hrest =>
      unfold getBinding at hget
      unfold jsSet
      by_cases he : ("id" : String) = k
      · exfalso
        rw [if_pos he] at hget
        rw [← Option.some.inj hget] at hobj
        simp [isObjectLike] at hobj
      · rw [if_neg he] at hget
        rw [if_neg he]
        exact .consIdUndef pend sx rest _
          (frameObj_set_child rest rest' pend k v v' hrest hget hobj hpend hv)
    | consChild _ _ _ vx _ rest' hpf hobjx hvx hrest =>
      unfold getBinding at hget
      unfold jsSet
      by_cases he : k1 = k
      · rw [if_pos he] at hget
        rw [if_pos he, ← he]
        rw [← he] at hpend
        have hv1 : v1 = v := Option.some.inj hget
        rw [← hv1] at hobj hv
        exact .consChild pend k1 v1 v' rest rest' hpend hobj hv hrest
      · rw [if_neg he] at hget
        rw [if_neg he]
        exact .consChild pend k1 v1 vx rest _ hpf hobjx hvx
          (frameObj_set_child rest rest' pend k v v' hrest hget hobj hpend hv)

theorem idStep_frame {items : List IImportItemResult} (whole o : JSObj)
    (pend : String → Bool) (k : String) (h : FrameObj items pend whole o) :
    FrameObj items pend whole (idStep items o k) := by
  by_cases hlow : jsToLower k = "id"
  · cases htr : tryFindNewId items (jsGet o "id") with
    | none =>
      have hstep : idStep items o k = o := by
        unfold idStep; rw [if_pos hlow, htr]
      rw [hstep]; exact h
    | some newId =>
      by_cases hz : newId = ""
      · have hstep : idStep items o k = o := by
          unfold idStep; rw [if_pos hlow, htr]; simp [hz]
        rw [hstep]; exact h
      · have hstep : idStep items o k = jsSet o "id" (.str newId) := by
          unfold idStep; rw [if_pos hlow, htr]; simp [hz]
        rw [hstep]
        have hsh := tryFindNewId_shape htr
        cases hb : getBinding o "id" with
        | none =>
          exact frameObj_set_id whole o pend newId h
            (Or.inl (frameObj_id_none whole o pend h hb))
        | some w =>
          have hw : jsGet o "id" = w := by rw [jsGet_eq_getBinding, hb]; rfl
          rw [hw] at hsh
          exact frameObj_set_id whole o pend newId h
            (frameObj_id_shape whole o pend w h hb hsh)
  · have hstep : idStep items o k = o := by
      unfold idStep; rw [if_neg hlow]
    rw [hstep]; exact h

mutual

theorem frame_val (items : List IImportItemResult) :
    ∀ v : JSVal, wfJS v = true → FrameVal items v (replaceIdReferencesWithNewId items v)
  | .str s, _ => .str s
  | .num n, _ => .num n
  | .boolean b, _ => .boolean b
  | .null, _ => .null
  | .undef, _ => .undef
  | .arr xs, hwf => .arr xs (replaceIdReferencesArr items xs) (frame_arr items xs hwf)
  | .obj fields, hwf =>
    .obj fields (objWalk items fields fields)
      (frame_walk items fields fields fields hwf (ObjSuffix.refl fields)
        (frameObj_refl items (fun k1 => hasKey fields k1) fields))

theorem frame_arr (items : List IImportItemResult) :
    ∀ xs : JSArr, wfArr xs = true → FrameArr items xs (replaceIdReferencesArr items xs)
  | .nil, _ => .nil
  | .cons x xs, hwf => by
    unfold wfArr at hwf
    simp only [Bool.and_eq_true] at hwf
    exact .cons x _ xs _ (frame_val items x hwf.1) (frame_arr items xs hwf.2)

theorem frame_walk (items : List IImportItemResult) :
    ∀ (fields whole o : JSObj), wfObj whole = true → ObjSuffix fields whole →
      FrameObj items (fun k1 => hasKey fields k1) whole o →
      FrameObj items (fun _ => false) whole (objWalk items fields o)
  | .nil, whole, o, hwf, hsuf, hinv => hinv
  | .cons k v rest, whole, o, hwf, hsuf, hinv => by
    have hget : getBinding whole k = some v := wf_suffix_getBinding hwf hsuf
    have hsuf2 : ObjSuffix rest whole := objSuffix_tail_of_cons hsuf
    have hwfc : wfObj (.cons k v rest) = true := wfObj_suffix hwf hsuf
    have hnorest : hasKey rest k = false := by
      unfold wfObj at hwfc
      simp only [Bool.and_eq_true, Bool.not_eq_true'] at hwfc
      exact hwfc.1.1
    have hwfv : wfJS v = true := wf_getBinding_val whole k v hwf hget
    have hinvR : FrameObj items (fun k1 => hasKey rest k1) whole o := by
      refine frameObj_mono whole o _ _ ?_ hinv
      intro k1 h1
      unfold hasKey at h1
      cases hh : hasKey rest k1 with
      | false => rfl
      | true => rw [hh] at h1; simp at h1
    show FrameObj items (fun _ => false) whole
      (objWalk items rest
        (if isObjectLike (jsGet o k) = true then
          jsSet (idStep items (stringStep items o k (jsGet o k)) k) k
            (replaceIdReferencesWithNewId items v)
        else idStep items (stringStep items o k (jsGet o k)) k))
    refine frame_walk items rest whole _ hwf hsuf2 ?_
    by_cases hkid : k = "id"
    · subst hkid
      have hp : (fun k1 => hasKey (JSObj.cons "id" v rest) k1) "id" = true := by
        simp [hasKey]
      rcases frameObj_id_get whole o _ v hinv hp hget with hcase | ⟨hvsh, ⟨s2, hb2⟩⟩
      · have hval : jsGet o "id" = v := by rw [jsGet_eq_getBinding, hcase]; rfl
        rw [hval]
        cases v with
        | str s =>
          have hno : ¬(isObjectLike (JSVal.str s) = true) := by simp [isObjectLike]
          rw [if_neg hno]
          refine idStep_frame whole _ _ "id" ?_
          simp only [stringStep]
          by_cases hdel : isDelimited s = true
          · rw [if_pos hdel]
            exact frameObj_set_delim whole o _ "id" s hinvR hget hdel hnorest
          · rw [if_neg hdel]
            exact hinvR
        | num n =>
          have hno : ¬(isObjectLike (JSVal.num n) = true) := by simp [isObjectLike]
          rw [if_neg hno]
          exact idStep_frame whole _ _ "id" hinvR
        | boolean b =>
          have hno : ¬(isObjectLike (JSVal.boolean b) = true) := by simp [isObjectLike]
          rw [if_neg hno]
          exact idStep_frame whole _ _ "id" hinvR
        | null =>
          have hno : ¬(isObjectLike JSVal.null = true) := by simp [isObjectLike]
          rw [if_neg hno]
          exact idStep_frame whole _ _ "id" hinvR
        | undef =>
          have hno : ¬(isObjectLike JSVal.undef = true) := by simp [isObjectLike]
          rw [if_neg hno]
          exact idStep_frame whole _ _ "id" hinvR
        | arr xs =>
          have hyes : isObjectLike (JSVal.arr xs) = true := rfl
          rw [if_pos hyes]
          exact frameObj_set_child whole
            (idStep items (stringStep items o "id" (JSVal.arr xs)) "id") _ "id"
            (JSVal.arr xs) (replaceIdReferencesWithNewId items (JSVal.arr xs))
            (idStep_frame whole (stringStep items o "id" (JSVal.arr xs)) _ "id" hinvR)
            hget rfl hnorest (frame_val items (JSVal.arr xs) hwfv)
        | obj fs =>
          have hyes : isObjectLike (JSVal.obj fs) = true := rfl
          rw [if_pos hyes]
          exact frameObj_set_child whole
            (idStep items (stringStep items o "id" (JSVal.obj fs)) "id") _ "id"
            (JSVal.obj fs) (replaceIdReferencesWithNewId items (JSVal.obj fs))
            (idStep_frame whole (stringStep items o "id" (JSVal.obj fs)) _ "id" hinvR)
            hget rfl hnorest (frame_val items (JSVal.obj fs) hwfv)
      · have hval : jsGet o "id" = .str s2 := by rw [jsGet_eq_getBinding, hb2]; rfl
        rw [hval]
        have hno : ¬(isObjectLike (JSVal.str s2) = true) := by simp [isObjectLike]
        rw [if_neg hno]
        refine idStep_frame whole _ _ "id" ?_
        simp only [stringStep]
        by_cases hdel : isDelimited s2 = true
        · rw [if_pos hdel]
          refine frameObj_set_id whole o _ (replaceIdsInRichText items s2) hinvR ?_
          rcases hvsh with h1 | ⟨t, h1⟩
          · exact Or.inr (Or.inl (by rw [← h1]; exact hget))
          · exact Or.inr (Or.inr ⟨t, by rw [← h1]; exact hget⟩)
        · rw [if_neg hdel]
          exact hinvR
    · have hp : (fun k1 => hasKey (JSObj.cons k v rest) k1) k = true := by
        simp [hasKey]
      have hvok : getBinding o k = some v := by
        rw [frameObj_pending_get whole o _ k hinv hp hkid]
        exact hget
      have hval : jsGet o k = v := by rw [jsGet_eq_getBinding, hvok]; rfl
      rw [hval]
      cases v with
      | str s =>
        have hno : ¬(isObjectLike (JSVal.str s) = true) := by simp [isObjectLike]
        rw [if_neg hno]
        refine idStep_frame whole _ _ k ?_
        simp only [stringStep]
        by_cases hdel : isDelimited s = true
        · rw [if_pos hdel]
          exact frameObj_set_delim whole o _ k s hinvR hget hdel hnorest
        · rw [if_neg hdel]
          exact hinvR
      | num n =>
        have hno : ¬(isObjectLike (JSVal.num n) = true) := by simp [isObjectLike]
        rw [if_neg hno]
        exact idStep_frame whole _ _ k hinvR
      | boolean b =>
        have hno : ¬(isObjectLike (JSVal.boolean b) = true) := by simp [isObjectLike]
        rw [if_neg hno]
        exact idStep_frame whole _ _ k hinvR
      | null =>
        have hno : ¬(isObjectLike JSVal.null = true) := by simp [isObjectLike]
        rw [if_neg hno]
        exact idStep_frame whole _ _ k hinvR
      | undef =>
        have hno : ¬(isObjectLike JSVal.undef = true) := by simp [isObjectLike]
        rw [if_neg hno]
        exact idStep_frame whole _ _ k hinvR
      | arr xs =>
        have hyes : isObjectLike (JSVal.arr xs) = true := rfl
        rw [if_pos hyes]
        exact frameObj_set_child whole
          (idStep items (stringStep items o k (JSVal.arr xs)) k) _ k
          (JSVal.arr xs) (replaceIdReferencesWithNewId items (JSVal.arr xs))
          (idStep_frame whole (stringStep items o k (JSVal.arr xs)) _ k hinvR)
          hget rfl hnorest (frame_val items (JSVal.arr xs) hwfv)
      | obj fs =>
        have hyes : isObjectLike (JSVal.obj fs) = true := rfl
        rw [if_pos hyes]
        exact frameObj_set_child whole
          (idStep items (stringStep items o k (JSVal.obj fs)) k) _ k
          (JSVal.obj fs) (replaceIdReferencesWithNewId items (JSVal.obj fs))
          (idStep_frame whole (stringStep items o k (JSVal.obj fs)) _ k hinvR)
          hget rfl hnorest (frame_val items (JSVal.obj fs) hwfv)

end

/-- C10: the frame property of `replaceIdReferencesWithNewId` (amended).
For every well-formed value tree (no object binds a key twice), the output
is related to the input by the `FrameVal` frame relation: leaves are
unchanged, arrays are rewritten elementwise (lengths preserved), and an
object keeps its keys in order, where a binding may only (a) be a
`<...>`-delimited string value rewritten by the rich-text rewriter, (b) be
the binding of the literal lowercase key `id`, whose string or undefined
value may be overwritten with a resolved id string (and such a binding may
be appended when a key named `id` case-insensitively is present but the
literal `id` property is absent), or (c) be an object/array child rewritten
recursively; every other binding is left unchanged. -/
theorem C10_tree_rewrite_frame (items : List IImportItemResult) (v : JSVal)
    (h : wfJS v = true) :
    FrameVal items v (replaceIdReferencesWithNewId items v) :=
  frame_val items v h

theorem C10_tree_rewrite_frame_witness :
    wfJS (JSVal.obj (.cons "a" (.str "x") .nil)) = true ∧
    FrameVal [] (JSVal.obj (.cons "a" (.str "x") .nil))
      (replaceIdReferencesWithNewId [] (JSVal.obj (.cons "a" (.str "x") .nil))) :=
  ⟨by decide, C10_tree_rewrite_frame [] (JSVal.obj (.cons "a" (.str "x") .nil)) (by decide)⟩

/-- Counterexample to C10 as stated: a key named `ID` (equal to `id` only
case-insensitively) is not itself re-resolved — the id-step reads and
writes the literal property `data.id` instead, so the rewrite appends a
new `id` binding to an object that had none, changing the key set; the
value stored under `ID` is left untouched rather than re-resolved. -/
theorem C10_uppercase_id_key_cex :
    (replaceIdReferencesWithNewId
        [⟨.variantList, .variantList, some "CREATED", none, some "cn2"⟩]
        (.obj (.cons "ID" (.str "a") .nil)) =
      .obj (.cons "ID" (.str "a") (.cons "id" (.str "CREATED") .nil))) ∧
    hasKey (.cons "ID" (.str "a") .nil) "id" = false := by
  decide

end KontentVerify
